import Mathlib

/-!
Verification of the libtw2 datafile core (`src/datafile/src/raw.rs`): the
header model (`DatafileHeader`), the `Reader` with its structural validation
passes, `read_data`, and the write-side `DatafileBuffer` with its ordered
insertion.  Rust `i32` values are embedded as `Int`, `usize` values as `Nat`;
casts that can wrap are made explicit.
-/

namespace Datafile

/-- Rust `as usize` on an `i32` value (sign extension then reinterpretation):
reduction modulo `2^64` of the signed value. -/
def usizeOf (v : Int) : Nat := (v % (2:Int)^64).toNat

/-- The value is representable as an `i32`. -/
def isI32 (v : Int) : Prop := -(2^31) ≤ v ∧ v < 2^31

instance (v : Int) : Decidable (isI32 v) := by
  unfold isI32; infer_instance

/-- `enum DatafileError` from the source. -/
inductive DatafileError
  | WrongMagic (magic : Nat)
  | UnsupportedVersion (version : Int)
  | MalformedHeader
  | Malformed
  | CompressionError
  | TooShort
  | TooShortHeaderVersion
  | TooShortHeader
deriving DecidableEq

/-- `enum Error` from the source (`Cb` collapses the opaque callback error). -/
inductive Error
  | Df (e : DatafileError)
  | Cb
deriving DecidableEq

/-- Modelled from the spec: the version sub-header `{magic:4 bytes, version:int32}`
from the `format` module (not part of this sub-tree).  The magic token is kept
as the raw 32-bit word in file byte order. -/
structure DatafileHeaderVersion where
  magic : Nat
  version : Int
deriving DecidableEq

/-- Modelled from the spec: the "rest" sub-header
`{size, swaplen, num_item_types, num_items, num_data, size_items, size_data}`,
all `int32`, from the `format` module (not part of this sub-tree). -/
structure DatafileHeaderRest where
  size : Int
  swaplen : Int
  num_item_types : Int
  num_items : Int
  num_data : Int
  size_items : Int
  size_data : Int
deriving DecidableEq

/-- `struct DatafileHeader` from the source. -/
structure DatafileHeader where
  hv : DatafileHeaderVersion
  hr : DatafileHeaderRest
deriving DecidableEq

/-- Modelled from the spec: an item-type record
`{type_id:int32, start:int32, num:int32}` (`DatafileItemType` in the `format`
module, not part of this sub-tree). -/
structure DatafileItemType where
  type_id : Int
  start : Int
  num : Int
deriving DecidableEq

/-- Modelled from the spec: `sizeof(DatafileHeaderVersion)` = 4 magic bytes +
one `int32` = 8 bytes. -/
def sizeofHeaderVersion : Nat := 8

/-- Modelled from the spec: `sizeof(DatafileHeader)` = version sub-header +
seven `int32` fields = 36 bytes. -/
def sizeofHeader : Nat := 36

/-- Modelled from the spec: the legal item-type ID range; type ids are
"logically 16-bit, stored widened", so the range bound is `2^16`
(`DATAFILE_ITEMTYPE_ID_RANGE` in the `format` module, not part of this
sub-tree). -/
def DATAFILE_ITEMTYPE_ID_RANGE : Int := 65536

/-- Modelled from the spec: `DatafileHeaderVersion::check` (in the `format`
module, not part of this sub-tree): "magic must equal one of the accepted
4-byte tokens; version must be 3 or 4; else fail `WrongMagic` /
`UnsupportedVersion`".  The set of accepted magic tokens is abstracted as a
predicate. -/
def DatafileHeaderVersion.check (accept : Nat → Bool) (hv : DatafileHeaderVersion) :
    Except DatafileError Unit :=
  if accept hv.magic then
    if hv.version = 3 ∨ hv.version = 4 then Except.ok ()
    else Except.error (DatafileError.UnsupportedVersion hv.version)
  else Except.error (DatafileError.WrongMagic hv.magic)

/-- Modelled from the spec: `DatafileHeaderRest::check` (in the `format`
module, not part of this sub-tree): "validate the rest sub-header's own
internal constraints (value ranges)"; the counts and byte sizes must be
non-negative and `size_items` must be divisible by the word size ("size must
be divisible by the word size — guaranteed already by header validation"). -/
def DatafileHeaderRest.check (hr : DatafileHeaderRest) : Except DatafileError Unit :=
  if 0 ≤ hr.num_item_types ∧ 0 ≤ hr.num_items ∧ 0 ≤ hr.num_data ∧
      0 ≤ hr.size_items ∧ 0 ≤ hr.size_data ∧ hr.size_items % 4 = 0
  then Except.ok ()
  else Except.error DatafileError.MalformedHeader

/-- The `u64` sum computed inside `DatafileHeader::total_size`, before the
downcast: rest-header size minus the two uncounted fields (`28 - 4*2`), plus
`sizeof(DatafileItemType) * num_item_types`, the two (or three) offset
tables, and the two blob sizes.  Arguments are the already-converted `u64`
values of the header fields. -/
def rawTotalSize (version : Int) (nit ni nd si sd : Nat) : Nat :=
  ((28 - 4 * 2) + 12 * nit + 4 * ni + 4 * nd
    + (if 4 ≤ version then 4 * nd else 0) + si + sd) % 2 ^ 64

/-- The helper `u` in `total_size`: `val.to_u64().unwrap()`, which panics
(`none`) on a negative value. -/
def u64OfI32 (v : Int) : Option Nat :=
  if 0 ≤ v then some v.toNat else none

/-- `DatafileHeader::total_size` from the source.  `none` models a panic of
the `.unwrap()` on a negative field; the downcast `result.to_i32()` fails with
`MalformedHeader` when the `u64` sum exceeds `i32::MAX`. -/
def DatafileHeader.total_size (h : DatafileHeader) :
    Option (Except DatafileError Int) := do
  let nit ← u64OfI32 h.hr.num_item_types
  let ni ← u64OfI32 h.hr.num_items
  let nd ← u64OfI32 h.hr.num_data
  let si ← u64OfI32 h.hr.size_items
  let sd ← u64OfI32 h.hr.size_data
  let result : Nat := rawTotalSize h.hv.version nit ni nd si sd
  some (if result ≤ 2 ^ 31 - 1 then Except.ok (result : Int)
        else Except.error DatafileError.MalformedHeader)

/-- `DatafileHeader::check` from the source: recompute `total_size` and
compare with the declared `size`. -/
def DatafileHeader.check (h : DatafileHeader) : Option (Except DatafileError Unit) :=
  match h.total_size with
  | none => none
  | some (Except.error e) => some (Except.error e)
  | some (Except.ok expected) =>
      if h.hr.size ≠ expected then some (Except.error DatafileError.MalformedHeader)
      else some (Except.ok ())

/-- Continuation of `DatafileHeader::read` after the version sub-record has
been validated: the full-length check, `hr.check`, and the header's own
`check`. -/
def readAfterVersion (avail : Nat) (h : DatafileHeader) :
    Option (Except Error DatafileHeader) :=
  if avail < sizeofHeader then
    some (Except.error (Error.Df DatafileError.TooShortHeader))
  else
    match h.hr.check with
    | Except.error e => some (Except.error (Error.Df e))
    | Except.ok () =>
      match h.check with
      | none => none
      | some (Except.error e) => some (Except.error (Error.Df e))
      | some (Except.ok ()) => some (Except.ok h)

/-- `DatafileHeader::read` from the source: `avail` is the number of bytes the
byte source could supply for the header read (the `read` return value), `h`
the header as decoded from those bytes.  `none` models a panic. -/
def DatafileHeader.read (accept : Nat → Bool) (avail : Nat) (h : DatafileHeader) :
    Option (Except Error DatafileHeader) :=
  if avail < sizeofHeaderVersion then
    some (Except.error (Error.Df DatafileError.TooShortHeaderVersion))
  else
    match h.hv.check accept with
    | Except.error e => some (Except.error (Error.Df e))
    | Except.ok () => readAfterVersion avail h

/-- The five count/size fields of the rest header that enter the
`total_size` recomputation. -/
inductive CountField
  | numItemTypes
  | numItems
  | numData
  | sizeItems
  | sizeData
deriving DecidableEq

/-- Read one count field. -/
def countVal (f : CountField) (hr : DatafileHeaderRest) : Int :=
  match f with
  | CountField.numItemTypes => hr.num_item_types
  | CountField.numItems => hr.num_items
  | CountField.numData => hr.num_data
  | CountField.sizeItems => hr.size_items
  | CountField.sizeData => hr.size_data

/-- Overwrite one count field (corrupting a header). -/
def setCount (f : CountField) (v : Int) (h : DatafileHeader) : DatafileHeader :=
  match f with
  | CountField.numItemTypes => ⟨h.hv, { h.hr with num_item_types := v }⟩
  | CountField.numItems => ⟨h.hv, { h.hr with num_items := v }⟩
  | CountField.numData => ⟨h.hv, { h.hr with num_data := v }⟩
  | CountField.sizeItems => ⟨h.hv, { h.hr with size_items := v }⟩
  | CountField.sizeData => ⟨h.hv, { h.hr with size_data := v }⟩

/-- All five count fields are in `i32` range. -/
def countsI32 (hr : DatafileHeaderRest) : Prop :=
  isI32 hr.num_item_types ∧ isI32 hr.num_items ∧ isI32 hr.num_data ∧
    isI32 hr.size_items ∧ isI32 hr.size_data

instance (hr : DatafileHeaderRest) : Decidable (countsI32 hr) := by
  unfold countsI32; infer_instance

/-- Injection of `Except` into `Sum`, used to derive decidable equality. -/
def exceptToSum {ε α} : Except ε α → ε ⊕ α
  | Except.error e => Sum.inl e
  | Except.ok a => Sum.inr a

instance {ε α} [DecidableEq ε] [DecidableEq α] : DecidableEq (Except ε α) :=
  fun a b => decidable_of_iff (exceptToSum a = exceptToSum b)
    (by cases a <;> cases b <;> simp [exceptToSum])

theorem hr_check_ok_iff (hr : DatafileHeaderRest) :
    hr.check = Except.ok () ↔
      (0 ≤ hr.num_item_types ∧ 0 ≤ hr.num_items ∧ 0 ≤ hr.num_data ∧
        0 ≤ hr.size_items ∧ 0 ≤ hr.size_data ∧ hr.size_items % 4 = 0) := by
  unfold DatafileHeaderRest.check
  split_ifs with hc
  · exact iff_of_true rfl hc
  · exact iff_of_false (by simp) hc

theorem rawTotalSize_cast (version : Int) (nit ni nd si sd : Int)
    (h1 : 0 ≤ nit) (b1 : nit < 2 ^ 31) (h2 : 0 ≤ ni) (b2 : ni < 2 ^ 31)
    (h3 : 0 ≤ nd) (b3 : nd < 2 ^ 31) (h4 : 0 ≤ si) (b4 : si < 2 ^ 31)
    (h5 : 0 ≤ sd) (b5 : sd < 2 ^ 31) :
    (rawTotalSize version nit.toNat ni.toNat nd.toNat si.toNat sd.toNat : Int)
      = 20 + 12 * nit + 4 * ni + 4 * nd
        + (if 4 ≤ version then 4 * nd else 0) + si + sd := by
  unfold rawTotalSize
  rcases le_or_lt 4 version with hv | hv
  · rw [if_pos hv, if_pos hv, Nat.mod_eq_of_lt (by omega)]
    push_cast
    omega
  · rw [if_neg (by omega), if_neg (by omega), Nat.mod_eq_of_lt (by omega)]
    push_cast
    omega

/-- The exact value of `total_size` on a header with non-negative `i32`
count/size fields: the mathematical sum, downcast-checked against
`i32::MAX`. -/
theorem total_size_formula (h : DatafileHeader)
    (hnn : 0 ≤ h.hr.num_item_types ∧ 0 ≤ h.hr.num_items ∧ 0 ≤ h.hr.num_data ∧
      0 ≤ h.hr.size_items ∧ 0 ≤ h.hr.size_data)
    (hb : countsI32 h.hr) :
    h.total_size = some (
      if (20 + 12 * h.hr.num_item_types + 4 * h.hr.num_items + 4 * h.hr.num_data
          + (if 4 ≤ h.hv.version then 4 * h.hr.num_data else 0)
          + h.hr.size_items + h.hr.size_data : Int) ≤ 2 ^ 31 - 1
      then Except.ok (20 + 12 * h.hr.num_item_types + 4 * h.hr.num_items
          + 4 * h.hr.num_data
          + (if 4 ≤ h.hv.version then 4 * h.hr.num_data else 0)
          + h.hr.size_items + h.hr.size_data)
      else Except.error DatafileError.MalformedHeader) := by
  obtain ⟨n1, n2, n3, n4, n5⟩ := hnn
  obtain ⟨⟨_, b1⟩, ⟨_, b2⟩, ⟨_, b3⟩, ⟨_, b4⟩, ⟨_, b5⟩⟩ := hb
  have key := rawTotalSize_cast h.hv.version h.hr.num_item_types h.hr.num_items
    h.hr.num_data h.hr.size_items h.hr.size_data n1 b1 n2 b2 n3 b3 n4 b4 n5 b5
  unfold DatafileHeader.total_size u64OfI32
  rw [if_pos n1, if_pos n2, if_pos n3, if_pos n4, if_pos n5]
  show some _ = some _
  rw [← key]
  by_cases hle : rawTotalSize h.hv.version h.hr.num_item_types.toNat
      h.hr.num_items.toNat h.hr.num_data.toNat h.hr.size_items.toNat
      h.hr.size_data.toNat ≤ 2 ^ 31 - 1
  · rw [if_pos hle, if_pos (show (rawTotalSize h.hv.version h.hr.num_item_types.toNat
      h.hr.num_items.toNat h.hr.num_data.toNat h.hr.size_items.toNat
      h.hr.size_data.toNat : Int) ≤ 2 ^ 31 - 1 by omega)]
  · rw [if_neg hle, if_neg (show ¬(rawTotalSize h.hv.version h.hr.num_item_types.toNat
      h.hr.num_items.toNat h.hr.num_data.toNat h.hr.size_items.toNat
      h.hr.size_data.toNat : Int) ≤ 2 ^ 31 - 1 by omega)]

/-- The mathematical (non-wrapping) value of the `total_size` sum. -/
def headerSum (h : DatafileHeader) : Int :=
  20 + 12 * h.hr.num_item_types + 4 * h.hr.num_items + 4 * h.hr.num_data
    + (if 4 ≤ h.hv.version then 4 * h.hr.num_data else 0)
    + h.hr.size_items + h.hr.size_data

theorem total_size_eq (h : DatafileHeader)
    (hnn : 0 ≤ h.hr.num_item_types ∧ 0 ≤ h.hr.num_items ∧ 0 ≤ h.hr.num_data ∧
      0 ≤ h.hr.size_items ∧ 0 ≤ h.hr.size_data)
    (hb : countsI32 h.hr) :
    h.total_size = some (
      if headerSum h ≤ 2 ^ 31 - 1 then Except.ok (headerSum h)
      else Except.error DatafileError.MalformedHeader) := by
  unfold headerSum
  exact total_size_formula h hnn hb

theorem check_total_ok (h : DatafileHeader) (s : Int)
    (hts : h.total_size = some (Except.ok s)) :
    h.check = if h.hr.size ≠ s then some (Except.error DatafileError.MalformedHeader)
      else some (Except.ok ()) := by
  unfold DatafileHeader.check
  rw [hts]

theorem check_total_err (h : DatafileHeader) (e : DatafileError)
    (hts : h.total_size = some (Except.error e)) :
    h.check = some (Except.error e) := by
  unfold DatafileHeader.check
  rw [hts]

theorem check_total_none (h : DatafileHeader)
    (hts : h.total_size = none) : h.check = none := by
  unfold DatafileHeader.check
  rw [hts]

theorem check_ok_iff (h : DatafileHeader)
    (hnn : 0 ≤ h.hr.num_item_types ∧ 0 ≤ h.hr.num_items ∧ 0 ≤ h.hr.num_data ∧
      0 ≤ h.hr.size_items ∧ 0 ≤ h.hr.size_data)
    (hb : countsI32 h.hr) :
    h.check = some (Except.ok ()) ↔
      (headerSum h ≤ 2 ^ 31 - 1 ∧ h.hr.size = headerSum h) := by
  have hts := total_size_eq h hnn hb
  by_cases hle : headerSum h ≤ 2 ^ 31 - 1
  · rw [if_pos hle] at hts
    rw [check_total_ok h _ hts]
    by_cases hsz : h.hr.size = headerSum h
    · exact iff_of_true (by rw [if_neg (not_not_intro hsz)]) ⟨hle, hsz⟩
    · exact iff_of_false (by rw [if_pos hsz]; simp) (fun hc => hsz hc.2)
  · rw [if_neg hle] at hts
    rw [check_total_err h _ hts]
    exact iff_of_false (by simp) (fun hc => hle hc.1)

theorem check_ne_ok (h : DatafileHeader)
    (hnn : 0 ≤ h.hr.num_item_types ∧ 0 ≤ h.hr.num_items ∧ 0 ≤ h.hr.num_data ∧
      0 ≤ h.hr.size_items ∧ 0 ≤ h.hr.size_data)
    (hb : countsI32 h.hr) (hne : h.check ≠ some (Except.ok ())) :
    h.check = some (Except.error DatafileError.MalformedHeader) := by
  have hts := total_size_eq h hnn hb
  by_cases hle : headerSum h ≤ 2 ^ 31 - 1
  · rw [if_pos hle] at hts
    rw [check_total_ok h _ hts] at hne ⊢
    by_cases hsz : h.hr.size = headerSum h
    · exact absurd (by rw [if_neg (not_not_intro hsz)]) hne
    · rw [if_pos hsz]
  · rw [if_neg hle] at hts
    exact check_total_err h _ hts

theorem setCount_size (f : CountField) (v : Int) (h : DatafileHeader) :
    (setCount f v h).hr.size = h.hr.size := by
  cases f <;> rfl

theorem setCount_version (f : CountField) (v : Int) (h : DatafileHeader) :
    (setCount f v h).hv.version = h.hv.version := by
  cases f <;> rfl

theorem total_size_none_of_neg (f : CountField) (v : Int) (h : DatafileHeader)
    (hnn : 0 ≤ h.hr.num_item_types ∧ 0 ≤ h.hr.num_items ∧ 0 ≤ h.hr.num_data ∧
      0 ≤ h.hr.size_items ∧ 0 ≤ h.hr.size_data)
    (hv : v < 0) : (setCount f v h).total_size = none := by
  obtain ⟨n1, n2, n3, n4, n5⟩ := hnn
  have hv' : ¬(0 ≤ v) := by omega
  cases f <;>
    simp [setCount, DatafileHeader.total_size, u64OfI32, n1, n2, n3, n4, n5, hv']

theorem headerSum_setCount_ne (f : CountField) (v : Int) (h : DatafileHeader)
    (hne : v ≠ countVal f h.hr) :
    headerSum (setCount f v h) ≠ headerSum h := by
  cases f <;>
    · simp only [headerSum, setCount, countVal] at hne ⊢
      split_ifs <;> omega

/-- C1: for every parsed header (one whose rest sub-header passed its range
check), `DatafileHeader::check` returns `Ok` exactly when the declared `size`
equals the value recomputed by `total_size`; on any mismatch it returns
`MalformedHeader`; and corrupting any one count that enters the recomputation
makes the check fail. -/
theorem C1_header_check_matches_total_size (h : DatafileHeader)
    (hrc : h.hr.check = Except.ok ()) (hb : countsI32 h.hr) :
    (h.check = some (Except.ok ()) ↔ h.total_size = some (Except.ok h.hr.size)) ∧
    (h.check ≠ some (Except.ok ()) →
      h.check = some (Except.error DatafileError.MalformedHeader)) ∧
    (∀ f : CountField, ∀ v : Int, isI32 v → v ≠ countVal f h.hr →
      h.check = some (Except.ok ()) →
      (setCount f v h).check ≠ some (Except.ok ())) := by
  have hall := (hr_check_ok_iff h.hr).mp hrc
  have hnn : 0 ≤ h.hr.num_item_types ∧ 0 ≤ h.hr.num_items ∧ 0 ≤ h.hr.num_data ∧
      0 ≤ h.hr.size_items ∧ 0 ≤ h.hr.size_data :=
    ⟨hall.1, hall.2.1, hall.2.2.1, hall.2.2.2.1, hall.2.2.2.2.1⟩
  refine ⟨?_, check_ne_ok h hnn hb, ?_⟩
  · rw [check_ok_iff h hnn hb, total_size_eq h hnn hb]
    constructor
    · rintro ⟨hle, hsz⟩
      rw [if_pos hle, hsz]
    · intro ht
      split_ifs at ht with hle
      · simp only [Option.some.injEq, Except.ok.injEq] at ht
        exact ⟨hle, ht.symm⟩
      · exact absurd ht (by simp)
  · intro f v hvb hvne hok
    rcases lt_or_le v 0 with hneg | hpos
    · rw [check_total_none _ (total_size_none_of_neg f v h hnn hneg)]
      simp
    · obtain ⟨n1, n2, n3, n4, n5⟩ := hnn
      obtain ⟨c1, c2, c3, c4, c5⟩ := hb
      simp only [isI32] at c1 c2 c3 c4 c5 hvb
      have hnn' : 0 ≤ (setCount f v h).hr.num_item_types ∧
          0 ≤ (setCount f v h).hr.num_items ∧ 0 ≤ (setCount f v h).hr.num_data ∧
          0 ≤ (setCount f v h).hr.size_items ∧ 0 ≤ (setCount f v h).hr.size_data := by
        cases f <;> refine ⟨?_, ?_, ?_, ?_, ?_⟩ <;> simp [setCount] <;> omega
      have hb' : countsI32 (setCount f v h).hr := by
        cases f <;> refine ⟨?_, ?_, ?_, ?_, ?_⟩ <;>
          simp only [setCount, isI32] <;> constructor <;> simp <;> omega
      intro hok'
      have h1 := (check_ok_iff h ⟨n1, n2, n3, n4, n5⟩ ⟨c1, c2, c3, c4, c5⟩).mp hok
      have h2 := (check_ok_iff _ hnn' hb').mp hok'
      rw [setCount_size] at h2
      exact headerSum_setCount_ne f v h hvne (h2.2.symm.trans h1.2)

/-- C2: for every header with non-negative count/size fields, `total_size`
computes in 64-bit unsigned arithmetic the sum
`(28 - 2*4) + 12*num_item_types + 4*num_items + 4*num_data
(+ 4*num_data iff version ≥ 4) + size_items + size_data`, returned as an
`i32`, with `MalformedHeader` exactly when the sum exceeds `i32::MAX`. -/
theorem C2_total_size_value (h : DatafileHeader)
    (hnn : 0 ≤ h.hr.num_item_types ∧ 0 ≤ h.hr.num_items ∧ 0 ≤ h.hr.num_data ∧
      0 ≤ h.hr.size_items ∧ 0 ≤ h.hr.size_data)
    (hb : countsI32 h.hr) :
    h.total_size = some (
      if (20 + 12 * h.hr.num_item_types + 4 * h.hr.num_items + 4 * h.hr.num_data
          + (if 4 ≤ h.hv.version then 4 * h.hr.num_data else 0)
          + h.hr.size_items + h.hr.size_data : Int) ≤ 2 ^ 31 - 1
      then Except.ok (20 + 12 * h.hr.num_item_types + 4 * h.hr.num_items
          + 4 * h.hr.num_data
          + (if 4 ≤ h.hv.version then 4 * h.hr.num_data else 0)
          + h.hr.size_items + h.hr.size_data)
      else Except.error DatafileError.MalformedHeader) :=
  total_size_formula h hnn hb

/-- C3: `DatafileHeader::read` fails with `TooShortHeaderVersion` when fewer
bytes than the version sub-record are available; with the version sub-record
available it validates magic and version (failing with `WrongMagic` or
`UnsupportedVersion`) before the full-length check; and fails with
`TooShortHeader` when the version sub-record was available and valid but fewer
bytes than the full header were supplied. -/
theorem C3_header_read_error_order (accept : Nat → Bool) (avail : Nat)
    (h : DatafileHeader) :
    (avail < sizeofHeaderVersion →
      h.read accept avail
        = some (Except.error (Error.Df DatafileError.TooShortHeaderVersion))) ∧
    (sizeofHeaderVersion ≤ avail → ∀ e, h.hv.check accept = Except.error e →
      h.read accept avail = some (Except.error (Error.Df e)) ∧
        ((∃ m, e = DatafileError.WrongMagic m) ∨
          (∃ ver, e = DatafileError.UnsupportedVersion ver))) ∧
    (sizeofHeaderVersion ≤ avail → avail < sizeofHeader →
      h.hv.check accept = Except.ok () →
      h.read accept avail
        = some (Except.error (Error.Df DatafileError.TooShortHeader))) := by
  refine ⟨?_, ?_, ?_⟩
  · intro hlt
    unfold DatafileHeader.read
    rw [if_pos hlt]
  · intro hge e he
    refine ⟨?_, ?_⟩
    · unfold DatafileHeader.read
      rw [if_neg (not_lt.mpr hge), he]
    · unfold DatafileHeaderVersion.check at he
      by_cases h1 : accept h.hv.magic
      · rw [if_pos h1] at he
        by_cases h2 : h.hv.version = 3 ∨ h.hv.version = 4
        · rw [if_pos h2] at he
          exact absurd he (by simp)
        · rw [if_neg h2] at he
          injection he with he'
          exact Or.inr ⟨h.hv.version, he'.symm⟩
      · rw [if_neg h1] at he
        injection he with he'
        exact Or.inl ⟨h.hv.magic, he'.symm⟩
  · intro hge hlt hok
    unfold DatafileHeader.read
    rw [if_neg (not_lt.mpr hge), hok]
    show readAfterVersion avail h = _
    unfold readAfterVersion
    rw [if_pos hlt]

/-- A tiny concrete header: version 3, all counts zero, declared size 20. -/
def H20 : DatafileHeader := ⟨⟨0, 3⟩, ⟨20, 0, 0, 0, 0, 0, 0⟩⟩

/-- A magic-accepting predicate accepting every token. -/
def acceptAll : Nat → Bool := fun _ => true

theorem C1_header_check_matches_total_size_witness :
    H20.check = some (Except.ok ()) :=
  (C1_header_check_matches_total_size H20 (by decide) (by decide)).1.mpr (by decide)

theorem C2_total_size_value_witness : H20.total_size = some (Except.ok 20) := by
  rw [C2_total_size_value H20 (by decide) (by decide)]
  decide

theorem C3_header_read_error_order_witness :
    DatafileHeader.read acceptAll 4 H20
        = some (Except.error (Error.Df DatafileError.TooShortHeaderVersion)) ∧
    DatafileHeader.read acceptAll 20 H20
        = some (Except.error (Error.Df DatafileError.TooShortHeader)) :=
  ⟨(C3_header_read_error_order acceptAll 4 H20).1 (by decide),
    (C3_header_read_error_order acceptAll 20 H20).2.2 (by decide) (by decide)
      (by decide)⟩

/-- Modelled from the spec: `sizeof(DatafileItemHeader)` = one packed 32-bit
word (`type_id`/`id`) + a 32-bit `size` = 8 bytes. -/
def sizeofItemHeader : Nat := 8

/-- Rust `as u32` on an `i32` value. -/
def u32Of (v : Int) : Nat := (v % (2:Int) ^ 32).toNat

/-- Rust `as u16` widening of an `i32` `type_id`. -/
def u16Of (v : Int) : Int := v % 2 ^ 16

/-- `struct Reader` from the source. -/
structure Reader where
  header : DatafileHeader
  item_types : List DatafileItemType
  item_offsets : List Int
  data_offsets : List Int
  uncomp_data_sizes : Option (List Int)
  items_raw : List Int
deriving DecidableEq

/-- The packed first word of `item_header(index)`: the item blob word at
`item_offsets[index] / 4` (byte offset scaled to `i32` words). -/
def itemHeaderWord (r : Reader) (index : Nat) : Int :=
  r.items_raw.getD ((r.item_offsets.getD index 0).toNat / 4) 0

/-- `item_header(index).size`: the second word of the item header. -/
def itemHeaderSize (r : Reader) (index : Nat) : Int :=
  r.items_raw.getD ((r.item_offsets.getD index 0).toNat / 4 + 1) 0

/-- Modelled from the spec: `item_header(index).type_id()`, the high 16 bits
of the packed word ("two packed 16-bit fields (`type_id`, `id`) within one
32-bit word"; the accessor lives in the `format` module, not part of this
sub-tree). -/
def itemHeaderTypeId (r : Reader) (index : Nat) : Int :=
  itemHeaderWord r index % 2 ^ 32 / 2 ^ 16 % 2 ^ 16

/-- The index interval `[a, b)` as a list, matching a Rust `a..b` loop. -/
def natRange (a b : Nat) : List Nat := (List.range b).drop a

/-- The item-type pass loop of `Reader::check`: `earlier` holds the already
visited descriptors (`self.item_types[..i]`), `expected_start` the running
cursor; returns the final cursor. -/
def checkItemTypesLoop (num_items : Int) (earlier : List DatafileItemType)
    (expected_start : Int) : List DatafileItemType → Except DatafileError Int
  | [] => Except.ok expected_start
  | t :: rest =>
    if ¬(0 ≤ t.type_id ∧ t.type_id < DATAFILE_ITEMTYPE_ID_RANGE) then
      Except.error DatafileError.Malformed
    else if ¬(0 ≤ t.num ∧ t.num ≤ num_items - t.start) then
      Except.error DatafileError.Malformed
    else if t.start ≠ expected_start then
      Except.error DatafileError.Malformed
    else if earlier.any (fun t2 => t2.type_id == t.type_id) then
      Except.error DatafileError.Malformed
    else
      checkItemTypesLoop num_items (earlier ++ [t]) (expected_start + t.num) rest

/-- Item-type pass of `Reader::check` (first block). -/
def Reader.checkItemTypes (r : Reader) : Except DatafileError Unit :=
  match checkItemTypesLoop r.header.hr.num_items [] 0 r.item_types with
  | Except.error e => Except.error e
  | Except.ok expected =>
    if expected ≠ r.header.hr.num_items then Except.error DatafileError.Malformed
    else Except.ok ()

/-- The item-offset pass loop of `Reader::check`: `offset` is the running byte
cursor; returns the final cursor. -/
def checkItemOffsetsLoop (r : Reader) (offset : Nat) :
    List Nat → Except DatafileError Nat
  | [] => Except.ok offset
  | i :: rest =>
    if r.item_offsets.getD i 0 < 0 then Except.error DatafileError.Malformed
    else if usizeOf (r.item_offsets.getD i 0) ≠ offset then
      Except.error DatafileError.Malformed
    else if offset + sizeofItemHeader > usizeOf r.header.hr.size_items then
      Except.error DatafileError.Malformed
    else if itemHeaderSize r i < 0 then Except.error DatafileError.Malformed
    else if offset + sizeofItemHeader + usizeOf (itemHeaderSize r i)
        > usizeOf r.header.hr.size_items then
      Except.error DatafileError.Malformed
    else
      checkItemOffsetsLoop r (offset + sizeofItemHeader + usizeOf (itemHeaderSize r i)) rest

/-- Item-offset pass of `Reader::check` (second block). -/
def Reader.checkItemOffsets (r : Reader) : Except DatafileError Unit :=
  match checkItemOffsetsLoop r 0 (List.range (usizeOf r.header.hr.num_items)) with
  | Except.error e => Except.error e
  | Except.ok offset =>
    if offset ≠ usizeOf r.header.hr.size_items then Except.error DatafileError.Malformed
    else Except.ok ()

/-- The uncompressed-size sub-check of the data-offset pass (only version 4,
i.e. only when the table is present). -/
def checkUncompSize (r : Reader) (i : Nat) : Except DatafileError Unit :=
  match r.uncomp_data_sizes with
  | some uds =>
    if uds.getD i 0 < 0 then Except.error DatafileError.Malformed else Except.ok ()
  | none => Except.ok ()

/-- The data-offset pass loop of `Reader::check`: `previous` is the previous
offset (initially 0). -/
def checkDataOffsetsLoop (r : Reader) (previous : Int) :
    List Nat → Except DatafileError Unit
  | [] => Except.ok ()
  | i :: rest =>
    match checkUncompSize r i with
    | Except.error e => Except.error e
    | Except.ok () =>
      if r.data_offsets.getD i 0 < 0 ∨
          r.data_offsets.getD i 0 > r.header.hr.size_data then
        Except.error DatafileError.Malformed
      else if previous > r.data_offsets.getD i 0 then
        Except.error DatafileError.Malformed
      else checkDataOffsetsLoop r (r.data_offsets.getD i 0) rest

/-- Data-offset pass of `Reader::check` (third block). -/
def Reader.checkDataOffsets (r : Reader) : Except DatafileError Unit :=
  checkDataOffsetsLoop r 0 (List.range (usizeOf r.header.hr.num_data))

/-- The cross-reference pass of `Reader::check` (fourth block): every item in
each type descriptor's range must carry that descriptor's `type_id`. -/
def checkItemTypeIdsLoop (r : Reader) : List DatafileItemType → Except DatafileError Unit
  | [] => Except.ok ()
  | t :: rest =>
    if (natRange (usizeOf t.start) (usizeOf (t.start + t.num))).all
        (fun k => itemHeaderTypeId r k == u16Of t.type_id) then
      checkItemTypeIdsLoop r rest
    else Except.error DatafileError.Malformed

/-- Cross-reference pass of `Reader::check`. -/
def Reader.checkItemTypeIds (r : Reader) : Except DatafileError Unit :=
  checkItemTypeIdsLoop r r.item_types

/-- `Reader::check` from the source: the four passes in order, each
short-circuiting. -/
def Reader.check (r : Reader) : Except DatafileError Unit :=
  match r.checkItemTypes with
  | Except.error e => Except.error e
  | Except.ok () =>
    match r.checkItemOffsets with
    | Except.error e => Except.error e
    | Except.ok () =>
      match r.checkDataOffsets with
      | Except.error e => Except.error e
      | Except.ok () => r.checkItemTypeIds

/-- `Reader::data_size_file` from the source; `none` models the failing
internal assertion `assert!(start <= end)`. -/
def Reader.data_size_file (r : Reader) (index : Nat) : Option Nat :=
  if usizeOf (r.data_offsets.getD index 0) ≤
      (if index < r.data_offsets.length - 1
        then usizeOf (r.data_offsets.getD (index + 1) 0)
        else usizeOf r.header.hr.size_data) then
    some ((if index < r.data_offsets.length - 1
        then usizeOf (r.data_offsets.getD (index + 1) 0)
        else usizeOf r.header.hr.size_data)
      - usizeOf (r.data_offsets.getD index 0))
  else none

/-- `cb.seek_read_exact_owned` against a pure byte source: `fileData` is the
byte region after the seek base; a short read yields `TooShort`. -/
def seekReadExact (fileData : List Nat) (start len : Nat) : Except Error (List Nat) :=
  if start + len ≤ fileData.length then Except.ok ((fileData.drop start).take len)
  else Except.error (Error.Df DatafileError.TooShort)

/-- The tail of `Reader::read_data` once the raw span `raw_data` has been
fetched: decompress (version 4, table present) or copy through (version 3).
`uncompress` abstracts `zlib::uncompress` (an external collaborator): given
the allocated destination length and the source bytes it returns the
decompressed length and the buffer contents, or `none` on a zlib error. -/
def readDataDecomp (r : Reader)
    (uncompress : Nat → List Nat → Option (Nat × List Nat))
    (index : Nat) (raw_data : List Nat) : Option (Except Error (List Nat)) :=
  match r.uncomp_data_sizes with
  | some uds =>
    match uncompress (usizeOf (uds.getD index 0)) raw_data with
    | some (len, data) =>
      if len = usizeOf (uds.getD index 0) then some (Except.ok data)
      else some (Except.error (Error.Df DatafileError.CompressionError))
    | none => some (Except.error (Error.Df DatafileError.CompressionError))
  | none => some (Except.ok raw_data)

/-- `Reader::read_data` from the source.  `none` in the result models a panic
of `data_size_file`'s assertion. -/
def Reader.read_data (r : Reader)
    (uncompress : Nat → List Nat → Option (Nat × List Nat))
    (fileData : List Nat) (index : Nat) : Option (Except Error (List Nat)) :=
  match r.data_size_file index with
  | none => none
  | some raw_data_len =>
    match seekReadExact fileData (u32Of (r.data_offsets.getD index 0)) raw_data_len with
    | Except.error e => some (Except.error e)
    | Except.ok raw_data => readDataDecomp r uncompress index raw_data

/-- Sum of the `num` fields of a list of type descriptors. -/
def sumNums (ts : List DatafileItemType) : Int := (ts.map (fun t => t.num)).sum

/-- Claim-side condition of the item-type pass: each descriptor in index
order has a legal `type_id`, a `num` within `[0, num_items - start]`, a
`start` equal to the running cursor (the sum of the earlier descriptors'
`num`s, beginning at 0), and a `type_id` different from every earlier
descriptor's. -/
def ItemTypesCond (num_items : Int) (earlier : List DatafileItemType) :
    List DatafileItemType → Prop
  | [] => True
  | t :: rest =>
    (0 ≤ t.type_id ∧ t.type_id < DATAFILE_ITEMTYPE_ID_RANGE) ∧
    (0 ≤ t.num ∧ t.num ≤ num_items - t.start) ∧
    t.start = sumNums earlier ∧
    (∀ t2 ∈ earlier, t2.type_id ≠ t.type_id) ∧
    ItemTypesCond num_items (earlier ++ [t]) rest

theorem sumNums_append (a b : List DatafileItemType) :
    sumNums (a ++ b) = sumNums a + sumNums b := by
  simp [sumNums]

theorem checkItemTypesLoop_ok_iff (num_items : Int) :
    ∀ (rest earlier : List DatafileItemType) (es v : Int), es = sumNums earlier →
      (checkItemTypesLoop num_items earlier es rest = Except.ok v ↔
        (ItemTypesCond num_items earlier rest ∧ v = es + sumNums rest)) := by
  intro rest
  induction rest with
  | nil =>
    intro earlier es v hes
    simp [checkItemTypesLoop, ItemTypesCond, sumNums, eq_comm]
  | cons t rest ih =>
    intro earlier es v hes
    unfold checkItemTypesLoop ItemTypesCond
    by_cases h1 : 0 ≤ t.type_id ∧ t.type_id < DATAFILE_ITEMTYPE_ID_RANGE
    · rw [if_neg (not_not_intro h1)]
      by_cases h2 : 0 ≤ t.num ∧ t.num ≤ num_items - t.start
      · rw [if_neg (not_not_intro h2)]
        by_cases h3 : t.start = es
        · rw [if_neg (not_not_intro h3)]
          by_cases h4 : (earlier.any (fun t2 => t2.type_id == t.type_id)) = true
          · rw [if_pos h4]
            rw [List.any_eq_true] at h4
            obtain ⟨t2, ht2, he⟩ := h4
            rw [beq_iff_eq] at he
            constructor
            · intro hc
              exact absurd hc (by simp)
            · rintro ⟨⟨_, _, _, hne, _⟩, _⟩
              exact absurd he (hne t2 ht2)
          · rw [if_neg h4]
            have h4' : ∀ t2 ∈ earlier, t2.type_id ≠ t.type_id := by
              intro t2 ht2 heq
              exact h4 (List.any_eq_true.mpr ⟨t2, ht2, beq_iff_eq.mpr heq⟩)
            rw [ih (earlier ++ [t]) (es + t.num) v
              (by rw [hes, sumNums_append]; simp [sumNums])]
            constructor
            · rintro ⟨hc, hv⟩
              refine ⟨⟨h1, h2, h3.trans hes, h4', hc⟩, ?_⟩
              rw [hv]
              simp [sumNums]
              ring
            · rintro ⟨⟨_, _, _, _, hc⟩, hv⟩
              refine ⟨hc, ?_⟩
              rw [hv]
              simp [sumNums]
              ring
        · rw [if_pos h3]
          constructor
          · intro hc
            exact absurd hc (by simp)
          · rintro ⟨⟨_, _, hs, _, _⟩, _⟩
            exact (h3 (hs.trans hes.symm)).elim
      · rw [if_pos h2]
        constructor
        · intro hc
          exact absurd hc (by simp)
        · rintro ⟨⟨_, hn, _, _, _⟩, _⟩
          exact (h2 hn).elim
    · rw [if_pos h1]
      constructor
      · intro hc
        exact absurd hc (by simp)
      · rintro ⟨⟨ht, _, _, _, _⟩, _⟩
        exact (h1 ht).elim

theorem checkItemTypesLoop_err (num_items : Int) :
    ∀ (rest earlier : List DatafileItemType) (es : Int) (e : DatafileError),
      checkItemTypesLoop num_items earlier es rest = Except.error e →
      e = DatafileError.Malformed := by
  intro rest
  induction rest with
  | nil =>
    intro earlier es e he
    exact absurd he (by simp [checkItemTypesLoop])
  | cons t rest ih =>
    intro earlier es e he
    unfold checkItemTypesLoop at he
    split_ifs at he with h1 h2 h3 h4 <;>
      first
      | (injection he with he'; exact he'.symm)
      | exact ih (earlier ++ [t]) (es + t.num) e he

theorem check_ok_parts (r : Reader) (hc : r.check = Except.ok ()) :
    r.checkItemTypes = Except.ok () ∧ r.checkItemOffsets = Except.ok () ∧
      r.checkDataOffsets = Except.ok () ∧ r.checkItemTypeIds = Except.ok () := by
  unfold Reader.check at hc
  cases h1 : r.checkItemTypes with
  | error e =>
    rw [h1] at hc
    exact absurd hc (by simp)
  | ok u =>
    cases u
    rw [h1] at hc
    cases h2 : r.checkItemOffsets with
    | error e =>
      rw [h2] at hc
      exact absurd hc (by simp)
    | ok u =>
      cases u
      rw [h2] at hc
      cases h3 : r.checkDataOffsets with
      | error e =>
        rw [h3] at hc
        exact absurd hc (by simp)
      | ok u =>
        cases u
        rw [h3] at hc
        exact ⟨rfl, rfl, rfl, hc⟩

theorem checkItemTypes_eq_of_loop_err (r : Reader) (e : DatafileError)
    (hl : checkItemTypesLoop r.header.hr.num_items [] 0 r.item_types
      = Except.error e) :
    r.checkItemTypes = Except.error e := by
  unfold Reader.checkItemTypes
  rw [hl]

theorem checkItemTypes_eq_of_loop_ok (r : Reader) (v : Int)
    (hl : checkItemTypesLoop r.header.hr.num_items [] 0 r.item_types
      = Except.ok v) :
    r.checkItemTypes = if v ≠ r.header.hr.num_items
      then Except.error DatafileError.Malformed else Except.ok () := by
  unfold Reader.checkItemTypes
  rw [hl]

/-- C4: the item-type pass of `Reader::check` succeeds exactly when every
type descriptor, in index order, has a `type_id` in the legal range, a `num`
in `[0, num_items - start]`, a `start` equal to the running cursor
accumulating the `num`s from 0, and a `type_id` distinct from all earlier
descriptors, and the final cursor equals `num_items`; any violation yields
`Malformed`. -/
theorem C4_item_type_pass (r : Reader) :
    (r.checkItemTypes = Except.ok () ↔
      (ItemTypesCond r.header.hr.num_items [] r.item_types ∧
        sumNums r.item_types = r.header.hr.num_items)) ∧
    (∀ e, r.checkItemTypes = Except.error e → e = DatafileError.Malformed) ∧
    (r.check = Except.ok () → r.checkItemTypes = Except.ok ()) := by
  have hiff := checkItemTypesLoop_ok_iff r.header.hr.num_items r.item_types [] 0
  refine ⟨?_, ?_, fun hc => (check_ok_parts r hc).1⟩
  · cases hl : checkItemTypesLoop r.header.hr.num_items [] 0 r.item_types with
    | error e =>
      rw [checkItemTypes_eq_of_loop_err r e hl]
      constructor
      · intro hc
        exact absurd hc (by simp)
      · rintro ⟨hcond, hsum⟩
        have hok : checkItemTypesLoop r.header.hr.num_items [] 0 r.item_types
            = Except.ok (0 + sumNums r.item_types) :=
          (hiff (0 + sumNums r.item_types) rfl).mpr ⟨hcond, rfl⟩
        rw [hl] at hok
        exact absurd hok (by simp)
    | ok v =>
      rw [checkItemTypes_eq_of_loop_ok r v hl]
      obtain ⟨hcond, hv⟩ := (hiff v rfl).mp hl
      by_cases heq : v = r.header.hr.num_items
      · rw [if_neg (not_not_intro heq)]
        exact iff_of_true rfl ⟨hcond, by omega⟩
      · rw [if_pos heq]
        constructor
        · intro hc
          exact absurd hc (by simp)
        · rintro ⟨_, hsum⟩
          exact absurd (by omega : v = r.header.hr.num_items) heq
  · intro e he
    cases hl : checkItemTypesLoop r.header.hr.num_items [] 0 r.item_types with
    | error e2 =>
      rw [checkItemTypes_eq_of_loop_err r e2 hl] at he
      injection he with he'
      rw [← he']
      exact checkItemTypesLoop_err r.header.hr.num_items r.item_types [] 0 e2 hl
    | ok v =>
      rw [checkItemTypes_eq_of_loop_ok r v hl] at he
      split_ifs at he
      injection he with he'
      exact he'.symm

/-- Claim-side condition of the item-offset pass: a running byte cursor,
walked once per item index; the recorded offset is non-negative and equals the
cursor, the cursor plus the item-header size stays within `size_items`, the
declared item size is non-negative, and the cursor advanced by that size stays
within `size_items`. -/
def ItemOffsetsCond (r : Reader) : Nat → List Nat → Prop
  | _, [] => True
  | offset, i :: rest =>
    0 ≤ r.item_offsets.getD i 0 ∧
    usizeOf (r.item_offsets.getD i 0) = offset ∧
    offset + sizeofItemHeader ≤ usizeOf r.header.hr.size_items ∧
    0 ≤ itemHeaderSize r i ∧
    offset + sizeofItemHeader + usizeOf (itemHeaderSize r i)
      ≤ usizeOf r.header.hr.size_items ∧
    ItemOffsetsCond r (offset + sizeofItemHeader + usizeOf (itemHeaderSize r i)) rest

/-- The value of the item-offset byte cursor after walking the given item
indices. -/
def itemCursorAfter (r : Reader) : Nat → List Nat → Nat
  | offset, [] => offset
  | offset, i :: rest =>
    itemCursorAfter r (offset + sizeofItemHeader + usizeOf (itemHeaderSize r i)) rest

theorem checkItemOffsetsLoop_ok_iff (r : Reader) :
    ∀ (idxs : List Nat) (offset v : Nat),
      checkItemOffsetsLoop r offset idxs = Except.ok v ↔
        (ItemOffsetsCond r offset idxs ∧ v = itemCursorAfter r offset idxs) := by
  intro idxs
  induction idxs with
  | nil =>
    intro offset v
    simp [checkItemOffsetsLoop, ItemOffsetsCond, itemCursorAfter, eq_comm]
  | cons i rest ih =>
    intro offset v
    unfold checkItemOffsetsLoop ItemOffsetsCond itemCursorAfter
    by_cases h1 : r.item_offsets.getD i 0 < 0
    · rw [if_pos h1]
      constructor
      · intro hc
        exact absurd hc (by simp)
      · rintro ⟨⟨hnn, _⟩, _⟩
        omega
    · rw [if_neg h1]
      by_cases h2 : usizeOf (r.item_offsets.getD i 0) ≠ offset
      · rw [if_pos h2]
        constructor
        · intro hc
          exact absurd hc (by simp)
        · rintro ⟨⟨_, heq, _⟩, _⟩
          exact (h2 heq).elim
      · rw [if_neg h2]
        by_cases h3 : offset + sizeofItemHeader > usizeOf r.header.hr.size_items
        · rw [if_pos h3]
          constructor
          · intro hc
            exact absurd hc (by simp)
          · rintro ⟨⟨_, _, hle, _⟩, _⟩
            omega
        · rw [if_neg h3]
          by_cases h4 : itemHeaderSize r i < 0
          · rw [if_pos h4]
            constructor
            · intro hc
              exact absurd hc (by simp)
            · rintro ⟨⟨_, _, _, hsz, _⟩, _⟩
              omega
          · rw [if_neg h4]
            by_cases h5 : offset + sizeofItemHeader + usizeOf (itemHeaderSize r i)
                > usizeOf r.header.hr.size_items
            · rw [if_pos h5]
              constructor
              · intro hc
                exact absurd hc (by simp)
              · rintro ⟨⟨_, _, _, _, hle, _⟩, _⟩
                omega
            · rw [if_neg h5]
              rw [ih (offset + sizeofItemHeader + usizeOf (itemHeaderSize r i)) v]
              constructor
              · rintro ⟨hc, hv⟩
                exact ⟨⟨by omega, by omega, by omega, by omega, by omega, hc⟩, hv⟩
              · rintro ⟨⟨_, _, _, _, _, hc⟩, hv⟩
                exact ⟨hc, hv⟩

theorem checkItemOffsetsLoop_err (r : Reader) :
    ∀ (idxs : List Nat) (offset : Nat) (e : DatafileError),
      checkItemOffsetsLoop r offset idxs = Except.error e →
      e = DatafileError.Malformed := by
  intro idxs
  induction idxs with
  | nil =>
    intro offset e he
    exact absurd he (by simp [checkItemOffsetsLoop])
  | cons i rest ih =>
    intro offset e he
    unfold checkItemOffsetsLoop at he
    split_ifs at he <;>
      first
      | (injection he with he'; exact he'.symm)
      | exact ih _ e he

theorem checkItemOffsets_eq_of_loop_err (r : Reader) (e : DatafileError)
    (hl : checkItemOffsetsLoop r 0 (List.range (usizeOf r.header.hr.num_items))
      = Except.error e) :
    r.checkItemOffsets = Except.error e := by
  unfold Reader.checkItemOffsets
  rw [hl]

theorem checkItemOffsets_eq_of_loop_ok (r : Reader) (v : Nat)
    (hl : checkItemOffsetsLoop r 0 (List.range (usizeOf r.header.hr.num_items))
      = Except.ok v) :
    r.checkItemOffsets = if v ≠ usizeOf r.header.hr.size_items
      then Except.error DatafileError.Malformed else Except.ok () := by
  unfold Reader.checkItemOffsets
  rw [hl]

/-- C5: the item-offset pass of `Reader::check` succeeds exactly when a byte
cursor starting at 0 and walked once per item index matches every recorded
(non-negative) offset, stays within `size_items` after adding the item-header
size and the (non-negative) declared item size, and finally equals
`size_items` exactly; any violation yields `Malformed`. -/
theorem C5_item_offset_pass (r : Reader) :
    (r.checkItemOffsets = Except.ok () ↔
      (ItemOffsetsCond r 0 (List.range (usizeOf r.header.hr.num_items)) ∧
        itemCursorAfter r 0 (List.range (usizeOf r.header.hr.num_items))
          = usizeOf r.header.hr.size_items)) ∧
    (∀ e, r.checkItemOffsets = Except.error e → e = DatafileError.Malformed) ∧
    (r.check = Except.ok () → r.checkItemOffsets = Except.ok ()) := by
  have hiff := checkItemOffsetsLoop_ok_iff r
    (List.range (usizeOf r.header.hr.num_items)) 0
  refine ⟨?_, ?_, fun hc => (check_ok_parts r hc).2.1⟩
  · cases hl : checkItemOffsetsLoop r 0
        (List.range (usizeOf r.header.hr.num_items)) with
    | error e =>
      rw [checkItemOffsets_eq_of_loop_err r e hl]
      constructor
      · intro hc
        exact absurd hc (by simp)
      · rintro ⟨hcond, hcur⟩
        have hok := (hiff (itemCursorAfter r 0
          (List.range (usizeOf r.header.hr.num_items)))).mpr ⟨hcond, rfl⟩
        rw [hl] at hok
        exact absurd hok (by simp)
    | ok v =>
      rw [checkItemOffsets_eq_of_loop_ok r v hl]
      obtain ⟨hcond, hv⟩ := (hiff v).mp hl
      by_cases heq : v = usizeOf r.header.hr.size_items
      · rw [if_neg (not_not_intro heq)]
        exact iff_of_true rfl ⟨hcond, by omega⟩
      · rw [if_pos heq]
        constructor
        · intro hc
          exact absurd hc (by simp)
        · rintro ⟨_, hcur⟩
          exact absurd (by omega : v = usizeOf r.header.hr.size_items) heq
  · intro e he
    cases hl : checkItemOffsetsLoop r 0
        (List.range (usizeOf r.header.hr.num_items)) with
    | error e2 =>
      rw [checkItemOffsets_eq_of_loop_err r e2 hl] at he
      injection he with he'
      rw [← he']
      exact checkItemOffsetsLoop_err r _ 0 e2 hl
    | ok v =>
      rw [checkItemOffsets_eq_of_loop_ok r v hl] at he
      split_ifs at he
      injection he with he'
      exact he'.symm

/-- Claim-side condition of the data-offset pass: per data index in order,
the uncompressed size (when the table is present) is non-negative, the offset
lies within `[0, size_data]`, and each offset is at least the previous one
(`previous` starts at 0). -/
def DataOffsetsCond (r : Reader) : Int → List Nat → Prop
  | _, [] => True
  | previous, i :: rest =>
    (∀ uds, r.uncomp_data_sizes = some uds → 0 ≤ uds.getD i 0) ∧
    0 ≤ r.data_offsets.getD i 0 ∧
    r.data_offsets.getD i 0 ≤ r.header.hr.size_data ∧
    previous ≤ r.data_offsets.getD i 0 ∧
    DataOffsetsCond r (r.data_offsets.getD i 0) rest

theorem checkUncompSize_ok_iff (r : Reader) (i : Nat) :
    checkUncompSize r i = Except.ok () ↔
      (∀ uds, r.uncomp_data_sizes = some uds → 0 ≤ uds.getD i 0) := by
  unfold checkUncompSize
  cases hu : r.uncomp_data_sizes with
  | none =>
    constructor
    · intro _ uds hc
      exact absurd hc (by simp)
    · intro _
      rfl
  | some uds =>
    show (if uds.getD i 0 < 0 then Except.error DatafileError.Malformed
      else Except.ok ()) = Except.ok () ↔ _
    by_cases hneg : uds.getD i 0 < 0
    · rw [if_pos hneg]
      constructor
      · intro hc
        exact absurd hc (by simp)
      · intro hall
        have := hall uds rfl
        omega
    · rw [if_neg hneg]
      constructor
      · intro _ uds2 heq
        injection heq with heq'
        rw [← heq']
        omega
      · intro _
        rfl

theorem checkUncompSize_err (r : Reader) (i : Nat) (e : DatafileError)
    (he : checkUncompSize r i = Except.error e) : e = DatafileError.Malformed := by
  unfold checkUncompSize at he
  cases hu : r.uncomp_data_sizes with
  | none =>
    rw [hu] at he
    exact absurd he (by simp)
  | some uds =>
    rw [hu] at he
    change (if uds.getD i 0 < 0 then Except.error DatafileError.Malformed
      else Except.ok ()) = Except.error e at he
    split_ifs at he
    injection he with he'
    exact he'.symm

theorem checkDataOffsetsLoop_step_err (r : Reader) (previous : Int) (i : Nat)
    (rest : List Nat) (e : DatafileError) (hs : checkUncompSize r i = Except.error e) :
    checkDataOffsetsLoop r previous (i :: rest) = Except.error e := by
  simp only [checkDataOffsetsLoop, hs]


theorem checkDataOffsetsLoop_step_ok (r : Reader) (previous : Int) (i : Nat)
    (rest : List Nat) (hs : checkUncompSize r i = Except.ok ()) :
    checkDataOffsetsLoop r previous (i :: rest) =
      if r.data_offsets.getD i 0 < 0 ∨
          r.data_offsets.getD i 0 > r.header.hr.size_data then
        Except.error DatafileError.Malformed
      else if previous > r.data_offsets.getD i 0 then
        Except.error DatafileError.Malformed
      else checkDataOffsetsLoop r (r.data_offsets.getD i 0) rest := by
  simp only [checkDataOffsetsLoop, hs]

theorem checkDataOffsetsLoop_ok_iff (r : Reader) :
    ∀ (idxs : List Nat) (previous : Int),
      checkDataOffsetsLoop r previous idxs = Except.ok () ↔
        DataOffsetsCond r previous idxs := by
  intro idxs
  induction idxs with
  | nil =>
    intro previous
    simp [checkDataOffsetsLoop, DataOffsetsCond]
  | cons i rest ih =>
    intro previous
    cases hs : checkUncompSize r i with
    | error e =>
      rw [checkDataOffsetsLoop_step_err r previous i rest e hs]
      constructor
      · intro hc
        exact absurd hc (by simp)
      · rintro ⟨hu, _⟩
        have hok := (checkUncompSize_ok_iff r i).mpr hu
        rw [hs] at hok
        exact absurd hok (by simp)
    | ok u =>
      cases u
      rw [checkDataOffsetsLoop_step_ok r previous i rest hs]
      have hu := (checkUncompSize_ok_iff r i).mp hs
      show _ ↔ DataOffsetsCond r previous (i :: rest)
      unfold DataOffsetsCond
      by_cases h1 : r.data_offsets.getD i 0 < 0 ∨
          r.data_offsets.getD i 0 > r.header.hr.size_data
      · rw [if_pos h1]
        constructor
        · intro hc
          exact absurd hc (by simp)
        · rintro ⟨_, hnn, hle, _⟩
          omega
      · rw [if_neg h1]
        by_cases h2 : previous > r.data_offsets.getD i 0
        · rw [if_pos h2]
          constructor
          · intro hc
            exact absurd hc (by simp)
          · rintro ⟨_, _, _, hmono, _⟩
            omega
        · rw [if_neg h2]
          rw [ih (r.data_offsets.getD i 0)]
          constructor
          · intro hc
            exact ⟨hu, by omega, by omega, by omega, hc⟩
          · rintro ⟨_, _, _, _, hc⟩
            exact hc

theorem checkDataOffsetsLoop_err (r : Reader) :
    ∀ (idxs : List Nat) (previous : Int) (e : DatafileError),
      checkDataOffsetsLoop r previous idxs = Except.error e →
      e = DatafileError.Malformed := by
  intro idxs
  induction idxs with
  | nil =>
    intro previous e he
    exact absurd he (by simp [checkDataOffsetsLoop])
  | cons i rest ih =>
    intro previous e he
    cases hs : checkUncompSize r i with
    | error e2 =>
      rw [checkDataOffsetsLoop_step_err r previous i rest e2 hs] at he
      injection he with he'
      rw [← he']
      exact checkUncompSize_err r i e2 hs
    | ok u =>
      cases u
      rw [checkDataOffsetsLoop_step_ok r previous i rest hs] at he
      split_ifs at he <;>
        first
        | (injection he with he'; exact he'.symm)
        | exact ih _ e he

/-- C6: the data-offset pass of `Reader::check` succeeds exactly when, per
data index in order, the uncompressed-size entry (when the table is present)
is non-negative, the offset lies within `[0, size_data]`, and offsets are
non-decreasing; any violation yields `Malformed`. -/
theorem C6_data_offset_pass (r : Reader) :
    (r.checkDataOffsets = Except.ok () ↔
      DataOffsetsCond r 0 (List.range (usizeOf r.header.hr.num_data))) ∧
    (∀ e, r.checkDataOffsets = Except.error e → e = DatafileError.Malformed) ∧
    (r.check = Except.ok () → r.checkDataOffsets = Except.ok ()) := by
  refine ⟨?_, ?_, fun hc => (check_ok_parts r hc).2.2.1⟩
  · exact checkDataOffsetsLoop_ok_iff r (List.range (usizeOf r.header.hr.num_data)) 0
  · intro e he
    exact checkDataOffsetsLoop_err r (List.range (usizeOf r.header.hr.num_data)) 0 e he

theorem usizeOf_eq_toNat (v : Int) (h0 : 0 ≤ v) (h1 : v < 2 ^ 64) :
    usizeOf v = v.toNat := by
  unfold usizeOf
  rw [Int.emod_eq_of_lt h0 (by omega)]

theorem usizeOf_le_usizeOf (x y : Int) (hx : 0 ≤ x) (hxy : x ≤ y)
    (hy : y < 2 ^ 64) : usizeOf x ≤ usizeOf y := by
  rw [usizeOf_eq_toNat x hx (by omega), usizeOf_eq_toNat y (by omega) hy]
  omega

theorem u32Of_eq_usizeOf (v : Int) (h0 : 0 ≤ v) (h1 : v < 2 ^ 31) :
    u32Of v = usizeOf v := by
  unfold u32Of
  rw [usizeOf_eq_toNat v h0 (by omega), Int.emod_eq_of_lt h0 (by omega)]

theorem natRange_cons (a b : Nat) (h : a < b) :
    natRange a b = a :: natRange (a + 1) b := by
  unfold natRange
  rw [List.drop_eq_getElem_cons (by simpa using h)]
  simp

theorem range_eq_natRange (b : Nat) : List.range b = natRange 0 b := by
  simp [natRange]

theorem dataCond_facts_aux (r : Reader) (b : Nat) :
    ∀ (n a : Nat) (previous : Int), b - a = n →
      DataOffsetsCond r previous (natRange a b) →
      ∀ i, a ≤ i → i < b →
        previous ≤ r.data_offsets.getD i 0 ∧
        0 ≤ r.data_offsets.getD i 0 ∧
        r.data_offsets.getD i 0 ≤ r.header.hr.size_data ∧
        (i + 1 < b → r.data_offsets.getD i 0 ≤ r.data_offsets.getD (i + 1) 0) ∧
        (∀ uds, r.uncomp_data_sizes = some uds → 0 ≤ uds.getD i 0) := by
  intro n
  induction n with
  | zero =>
    intro a previous hn hcond i hai hib
    omega
  | succ n ih =>
    intro a previous hn hcond i hai hib
    have hab : a < b := by omega
    rw [natRange_cons a b hab] at hcond
    obtain ⟨hu, hnn, hle, hprev, hrest⟩ := hcond
    rcases Nat.eq_or_lt_of_le hai with heq | hlt
    · subst heq
      refine ⟨hprev, hnn, hle, ?_, hu⟩
      intro hsb
      exact (ih (a + 1) (r.data_offsets.getD a 0) (by omega) hrest (a + 1)
        (le_refl _) hsb).1
    · have hfacts := ih (a + 1) (r.data_offsets.getD a 0) (by omega) hrest i
        (by omega) hib
      exact ⟨le_trans hprev hfacts.1, hfacts.2.1, hfacts.2.2.1, hfacts.2.2.2.1,
        hfacts.2.2.2.2⟩

theorem dataCond_facts (r : Reader)
    (hcond : DataOffsetsCond r 0 (List.range (usizeOf r.header.hr.num_data))) :
    ∀ i, i < usizeOf r.header.hr.num_data →
      0 ≤ r.data_offsets.getD i 0 ∧
      r.data_offsets.getD i 0 ≤ r.header.hr.size_data ∧
      (i + 1 < usizeOf r.header.hr.num_data →
        r.data_offsets.getD i 0 ≤ r.data_offsets.getD (i + 1) 0) ∧
      (∀ uds, r.uncomp_data_sizes = some uds → 0 ≤ uds.getD i 0) := by
  intro i hi
  rw [range_eq_natRange] at hcond
  have hfacts := dataCond_facts_aux r (usizeOf r.header.hr.num_data)
    (usizeOf r.header.hr.num_data) 0 0 rfl hcond i (Nat.zero_le i) hi
  exact ⟨hfacts.2.1, hfacts.2.2.1, hfacts.2.2.2.1, hfacts.2.2.2.2⟩

/-- The end bound used by `data_size_file`: the next entry's offset, or
`size_data` for the last entry. -/
def dataEndBound (r : Reader) (index : Nat) : Nat :=
  if index < r.data_offsets.length - 1
    then usizeOf (r.data_offsets.getD (index + 1) 0)
    else usizeOf r.header.hr.size_data

theorem data_size_file_eq (r : Reader) (index : Nat) :
    r.data_size_file index =
      if usizeOf (r.data_offsets.getD index 0) ≤ dataEndBound r index
      then some (dataEndBound r index - usizeOf (r.data_offsets.getD index 0))
      else none := by
  unfold Reader.data_size_file dataEndBound
  rfl

theorem data_size_file_isSome_of_checked (r : Reader) (index : Nat)
    (hdo : r.checkDataOffsets = Except.ok ())
    (hlen : r.data_offsets.length = usizeOf r.header.hr.num_data)
    (hb : ∀ x ∈ r.data_offsets, isI32 x)
    (hsd : isI32 r.header.hr.size_data)
    (hidx : index < usizeOf r.header.hr.num_data) :
    r.data_size_file index
      = some (dataEndBound r index - usizeOf (r.data_offsets.getD index 0)) ∧
      dataEndBound r index ≤ usizeOf r.header.hr.size_data ∧
      usizeOf (r.data_offsets.getD index 0) ≤ dataEndBound r index := by
  have hcond := (checkDataOffsetsLoop_ok_iff r
    (List.range (usizeOf r.header.hr.num_data)) 0).mp hdo
  have hfacts := dataCond_facts r hcond index hidx
  have hmem : r.data_offsets.getD index 0 ∈ r.data_offsets := by
    rw [List.getD_eq_getElem r.data_offsets 0 (by omega)]
    exact List.getElem_mem _
  have hbi := hb _ hmem
  have hsd64 : r.header.hr.size_data < 2 ^ 64 := by
    have := hsd.2
    omega
  have hend : dataEndBound r index ≤ usizeOf r.header.hr.size_data := by
    unfold dataEndBound
    by_cases hlast : index < r.data_offsets.length - 1
    · rw [if_pos hlast]
      have hidx1 : index + 1 < usizeOf r.header.hr.num_data := by omega
      have hfacts1 := dataCond_facts r hcond (index + 1) hidx1
      exact usizeOf_le_usizeOf _ _ hfacts1.1 hfacts1.2.1 hsd64
    · rw [if_neg hlast]
  have hse : usizeOf (r.data_offsets.getD index 0) ≤ dataEndBound r index := by
    unfold dataEndBound
    by_cases hlast : index < r.data_offsets.length - 1
    · rw [if_pos hlast]
      have hidx1 : index + 1 < usizeOf r.header.hr.num_data := by omega
      have hfacts1 := dataCond_facts r hcond (index + 1) hidx1
      have hmem1 : r.data_offsets.getD (index + 1) 0 ∈ r.data_offsets := by
        rw [List.getD_eq_getElem r.data_offsets 0 (by omega)]
        exact List.getElem_mem _
      have hbi1 := hb _ hmem1
      exact usizeOf_le_usizeOf _ _ hfacts.1 (hfacts.2.2.1 hidx1) (by have := hbi1.2; omega)
    · rw [if_neg hlast]
      exact usizeOf_le_usizeOf _ _ hfacts.1 hfacts.2.1 hsd64
  rw [data_size_file_eq, if_pos hse]
  exact ⟨rfl, hend, hse⟩

/-- C10: for a `Reader` whose `check` passed, `data_size_file` is well
defined at every valid data index: the start offset is at most the end bound,
so the internal assertion cannot fail. -/
theorem C10_data_size_file_defined (r : Reader) (index : Nat)
    (hchk : r.check = Except.ok ())
    (hlen : r.data_offsets.length = usizeOf r.header.hr.num_data)
    (hb : ∀ x ∈ r.data_offsets, isI32 x)
    (hsd : isI32 r.header.hr.size_data)
    (hidx : index < usizeOf r.header.hr.num_data) :
    (r.data_size_file index).isSome ∧
      usizeOf (r.data_offsets.getD index 0) ≤
        (if index < r.data_offsets.length - 1
          then usizeOf (r.data_offsets.getD (index + 1) 0)
          else usizeOf r.header.hr.size_data) := by
  have hdo := (check_ok_parts r hchk).2.2.1
  have hmain := data_size_file_isSome_of_checked r index hdo hlen hb hsd hidx
  constructor
  · rw [hmain.1]
    rfl
  · exact hmain.2.2

theorem read_data_eq_decomp (r : Reader)
    (uncompress : Nat → List Nat → Option (Nat × List Nat))
    (fileData : List Nat) (index raw_len : Nat) (span : List Nat)
    (hdsf : r.data_size_file index = some raw_len)
    (hseek : seekReadExact fileData (u32Of (r.data_offsets.getD index 0)) raw_len
      = Except.ok span) :
    r.read_data uncompress fileData index = readDataDecomp r uncompress index span := by
  unfold Reader.read_data
  rw [hdsf]
  show (match seekReadExact fileData (u32Of (r.data_offsets.getD index 0)) raw_len with
    | Except.error e => some (Except.error e)
    | Except.ok raw_data => readDataDecomp r uncompress index raw_data) = _
  rw [hseek]

theorem readDataDecomp_some (r : Reader)
    (uncompress : Nat → List Nat → Option (Nat × List Nat))
    (index : Nat) (raw : List Nat) (uds : List Int)
    (hu : r.uncomp_data_sizes = some uds) :
    readDataDecomp r uncompress index raw =
      match uncompress (usizeOf (uds.getD index 0)) raw with
      | some (len, data) =>
        if len = usizeOf (uds.getD index 0) then some (Except.ok data)
        else some (Except.error (Error.Df DatafileError.CompressionError))
      | none => some (Except.error (Error.Df DatafileError.CompressionError)) := by
  unfold readDataDecomp
  rw [hu]

theorem readDataDecomp_v3 (r : Reader)
    (uncompress : Nat → List Nat → Option (Nat × List Nat))
    (index : Nat) (raw : List Nat)
    (hu : r.uncomp_data_sizes = none) :
    readDataDecomp r uncompress index raw = some (Except.ok raw) := by
  unfold readDataDecomp
  rw [hu]

/-- C7: on a validated `Reader` and a valid data index, with the whole data
region available: when the uncompressed-size table is present, `read_data`
decompresses the raw span into a buffer of the declared size and returns
`CompressionError` exactly when decompression fails or the decompressed
length differs from the declared size; when the table is absent, it returns
the raw byte span between consecutive data offsets (or `size_data` for the
last entry) unchanged, performing no decompression. -/
theorem C7_read_data_decompression (r : Reader)
    (uncompress : Nat → List Nat → Option (Nat × List Nat))
    (fileData : List Nat) (index : Nat)
    (hchk : r.check = Except.ok ())
    (hlen : r.data_offsets.length = usizeOf r.header.hr.num_data)
    (hb : ∀ x ∈ r.data_offsets, isI32 x)
    (hsd : isI32 r.header.hr.size_data)
    (hfile : usizeOf r.header.hr.size_data ≤ fileData.length)
    (hidx : index < usizeOf r.header.hr.num_data) :
    ∀ raw_len, r.data_size_file index = some raw_len →
      (∀ uds, r.uncomp_data_sizes = some uds →
        (r.read_data uncompress fileData index
            = some (Except.error (Error.Df DatafileError.CompressionError)) ↔
          (uncompress (usizeOf (uds.getD index 0))
              ((fileData.drop (u32Of (r.data_offsets.getD index 0))).take raw_len)
              = none ∨
            ∃ len data, uncompress (usizeOf (uds.getD index 0))
                ((fileData.drop (u32Of (r.data_offsets.getD index 0))).take raw_len)
              = some (len, data) ∧ len ≠ usizeOf (uds.getD index 0))) ∧
        (∀ len data, uncompress (usizeOf (uds.getD index 0))
              ((fileData.drop (u32Of (r.data_offsets.getD index 0))).take raw_len)
            = some (len, data) → len = usizeOf (uds.getD index 0) →
          r.read_data uncompress fileData index = some (Except.ok data))) ∧
      (r.uncomp_data_sizes = none →
        r.read_data uncompress fileData index
          = some (Except.ok ((fileData.drop
              (u32Of (r.data_offsets.getD index 0))).take raw_len))) := by
  intro raw_len hdsf
  have hdo := (check_ok_parts r hchk).2.2.1
  have hmain := data_size_file_isSome_of_checked r index hdo hlen hb hsd hidx
  have hrl : raw_len = dataEndBound r index - usizeOf (r.data_offsets.getD index 0) := by
    rw [hmain.1] at hdsf
    injection hdsf with hdsf'
    exact hdsf'.symm
  have hcond := (checkDataOffsetsLoop_ok_iff r
    (List.range (usizeOf r.header.hr.num_data)) 0).mp hdo
  have hfacts := dataCond_facts r hcond index hidx
  have hmem : r.data_offsets.getD index 0 ∈ r.data_offsets := by
    rw [List.getD_eq_getElem r.data_offsets 0 (by omega)]
    exact List.getElem_mem _
  have hbi := hb _ hmem
  have hcast : u32Of (r.data_offsets.getD index 0)
      = usizeOf (r.data_offsets.getD index 0) :=
    u32Of_eq_usizeOf _ hfacts.1 hbi.2
  have hbound : u32Of (r.data_offsets.getD index 0) + raw_len ≤ fileData.length := by
    rw [hcast, hrl]
    have h1 := hmain.2.1
    have h2 := hmain.2.2
    omega
  have hseek : seekReadExact fileData (u32Of (r.data_offsets.getD index 0)) raw_len
      = Except.ok ((fileData.drop (u32Of (r.data_offsets.getD index 0))).take raw_len) := by
    unfold seekReadExact
    rw [if_pos hbound]
  have hrd := read_data_eq_decomp r uncompress fileData index raw_len _ hdsf hseek
  refine ⟨?_, ?_⟩
  · intro uds hu
    rw [hrd, readDataDecomp_some r uncompress index _ uds hu]
    constructor
    · cases hcall : uncompress (usizeOf (uds.getD index 0))
          ((fileData.drop (u32Of (r.data_offsets.getD index 0))).take raw_len) with
      | none =>
        exact iff_of_true rfl (Or.inl rfl)
      | some p =>
        obtain ⟨len, data⟩ := p
        show (if len = usizeOf (uds.getD index 0) then some (Except.ok data)
          else some (Except.error (Error.Df DatafileError.CompressionError))) = _ ↔ _
        by_cases hl : len = usizeOf (uds.getD index 0)
        · rw [if_pos hl]
          constructor
          · intro hc
            exact absurd hc (by simp)
          · rintro (hn | ⟨len2, data2, hc, hne⟩)
            · exact absurd hn (by simp)
            · injection hc with hc'
              injection hc' with hl2 hd2
              exact (hne (hl2 ▸ hl)).elim
        · rw [if_neg hl]
          exact iff_of_true rfl (Or.inr ⟨len, data, rfl, hl⟩)
    · intro len data hcall hl
      rw [hcall]
      show (if len = usizeOf (uds.getD index 0) then some (Except.ok data)
        else some (Except.error (Error.Df DatafileError.CompressionError))) = _
      rw [if_pos hl]
  · intro hu
    rw [hrd, readDataDecomp_v3 r uncompress index _ hu]

/-- A tiny validated reader: version 4, no items, one data entry of declared
uncompressed size 3 spanning the whole 2-byte data region. -/
def RD : Reader :=
  ⟨⟨⟨0, 4⟩, ⟨28, 0, 0, 0, 1, 0, 2⟩⟩, [], [], [0], some [3], []⟩

theorem C4_item_type_pass_witness : RD.checkItemTypes = Except.ok () :=
  (C4_item_type_pass RD).2.2 (by decide)

theorem C5_item_offset_pass_witness : RD.checkItemOffsets = Except.ok () :=
  (C5_item_offset_pass RD).2.2 (by decide)

theorem C6_data_offset_pass_witness : RD.checkDataOffsets = Except.ok () :=
  (C6_data_offset_pass RD).2.2 (by decide)

theorem C10_data_size_file_defined_witness :
    (RD.data_size_file 0).isSome ∧
      usizeOf (RD.data_offsets.getD 0 0) ≤
        (if 0 < RD.data_offsets.length - 1
          then usizeOf (RD.data_offsets.getD 1 0)
          else usizeOf RD.header.hr.size_data) :=
  C10_data_size_file_defined RD 0 (by decide) (by decide) (by decide) (by decide)
    (by decide)

/-- A decompressor stub returning a buffer of sevens of the requested
length. -/
def uncompSevens : Nat → List Nat → Option (Nat × List Nat) :=
  fun dl _ => some (dl, List.replicate dl 7)

theorem C7_read_data_decompression_witness :
    RD.read_data uncompSevens [5, 6] 0 = some (Except.ok [7, 7, 7]) :=
  ((C7_read_data_decompression RD uncompSevens [5, 6] 0 (by decide) (by decide)
      (by decide) (by decide) (by decide) (by decide) 2 (by decide)).1
    [3] (by decide)).2 3 [7, 7, 7] (by decide) (by decide)

/-- `struct DfBufItemType` from the source (`start`/`num` are `usize`). -/
structure DfBufItemType where
  type_id : Nat
  start : Nat
  num : Nat
deriving DecidableEq

/-- `struct DfBufItem` from the source. -/
structure DfBufItem where
  type_id : Nat
  id : Nat
  data : List Int
deriving DecidableEq

/-- `struct DatafileBuffer` from the source. -/
structure DatafileBuffer where
  item_types : List DfBufItemType
  items : List DfBufItem
  data : List (List Nat)
deriving DecidableEq

/-- `DatafileBuffer::new` from the source. -/
def DatafileBuffer.new : DatafileBuffer := ⟨[], [], []⟩

/-- The scan loop of `get_item_type_index`: first index whose descriptor has
`type_id ≤` its own, with the equality flag; `i` is the running index. -/
def gitiGo (type_id : Nat) : List DfBufItemType → Nat → Nat × Bool
  | [], i => (i, false)
  | t :: rest, i =>
    if type_id ≤ t.type_id then (i, type_id == t.type_id)
    else gitiGo type_id rest (i + 1)

/-- `DatafileBuffer::get_item_type_index` from the source. -/
def DatafileBuffer.get_item_type_index (b : DatafileBuffer) (type_id : Nat) :
    Nat × Bool :=
  gitiGo type_id b.item_types 0

/-- The scan loop of `get_item_index` over one type's item slice: first
position whose item has `id ≤` its own, with the equality flag; `i` is the
running absolute index. -/
def giiScan (id : Nat) : List DfBufItem → Nat → Nat × Bool
  | [], i => (i, false)
  | x :: rest, i =>
    if id ≤ x.id then (i, id == x.id)
    else giiScan id rest (i + 1)

/-- Placeholder descriptor for out-of-range `getD` accesses. -/
def noItemType : DfBufItemType := ⟨0, 0, 0⟩

/-- `DatafileBuffer::get_item_index` from the source. -/
def DatafileBuffer.get_item_index (b : DatafileBuffer) (item_type_index : Nat)
    (item_type_found : Bool) (id : Nat) : Nat × Bool :=
  if !item_type_found then
    if item_type_index ≠ b.item_types.length then
      ((b.item_types.getD item_type_index noItemType).start, false)
    else (b.items.length, false)
  else
    giiScan id
      ((b.items.drop (b.item_types.getD item_type_index noItemType).start).take
        (b.item_types.getD item_type_index noItemType).num)
      (b.item_types.getD item_type_index noItemType).start

/-- The item-type-table update of `add_item`: insert a fresh descriptor when
the type is new, bump the matched/created descriptor's `num`, and shift every
later descriptor's `start` forward by one. -/
def addItemTypes (ts : List DfBufItemType) (type_index : Nat) (type_found : Bool)
    (type_id item_index : Nat) : List DfBufItemType :=
  let ts1 := if !type_found
    then ts.insertIdx type_index ⟨type_id, item_index, 0⟩ else ts
  let ts2 := ts1.modify (fun t => { t with num := t.num + 1 }) type_index
  ts2.take (type_index + 1)
    ++ (ts2.drop (type_index + 1)).map (fun t => { t with start := t.start + 1 })

/-- `DatafileBuffer::add_item` from the source: locate the type and item
insertion points, fail on a duplicate `(type_id, id)`, otherwise insert the
descriptor (if new), bump its `num`, shift all later `start`s by one, and
insert the item. -/
def DatafileBuffer.add_item (b : DatafileBuffer) (type_id id : Nat)
    (data : List Int) : Except Unit DatafileBuffer :=
  let tp := b.get_item_type_index type_id
  let ip := b.get_item_index tp.1 tp.2 id
  if ip.2 then Except.error ()
  else
    Except.ok ⟨addItemTypes b.item_types tp.1 tp.2 type_id ip.1,
      b.items.insertIdx ip.1 ⟨type_id, id, data⟩, b.data⟩

/-- `DatafileBuffer::add_data` from the source: push the blob, return its
index. -/
def DatafileBuffer.add_data (b : DatafileBuffer) (data : List Nat) :
    DatafileBuffer × Nat :=
  (⟨b.item_types, b.items, b.data ++ [data]⟩, (b.data ++ [data]).length - 1)

/-- Strict ascending order of item ids (adjacent comparison). -/
def idsStrict : List DfBufItem → Bool
  | [] => true
  | [_] => true
  | x :: y :: rest => decide (x.id < y.id) && idsStrict (y :: rest)

/-- The structural well-formedness invariant of a buffer's parallel tables:
`acc` is the expected `start` of the next descriptor; each descriptor's span
is a prefix of the remaining items, typed uniformly and strictly sorted by
id, and descriptor `type_id`s are strictly ascending. -/
def wfAux (acc : Nat) : List DfBufItemType → List DfBufItem → Bool
  | [], items => items.isEmpty
  | t :: ts, items =>
    (t.start == acc) &&
    decide (t.num ≤ items.length) &&
    (items.take t.num).all (fun x => x.type_id == t.type_id) &&
    idsStrict (items.take t.num) &&
    (match ts with
      | [] => true
      | t2 :: _ => decide (t.type_id < t2.type_id)) &&
    wfAux (acc + t.num) ts (items.drop t.num)

/-- Well-formedness of a `DatafileBuffer`. -/
def DatafileBuffer.wf (b : DatafileBuffer) : Bool := wfAux 0 b.item_types b.items

/-- One call against the buffer. -/
inductive BufOp
  | addItem (type_id id : Nat) (data : List Int)
  | addData (bytes : List Nat)

/-- Execute one call (a failed `add_item` leaves the buffer unchanged, as the
source returns before mutating). -/
def applyOp (b : DatafileBuffer) : BufOp → DatafileBuffer
  | BufOp.addItem t i d =>
    match b.add_item t i d with
    | Except.ok b2 => b2
    | Except.error _ => b
  | BufOp.addData bs => (b.add_data bs).1

/-- Execute a sequence of calls from `DatafileBuffer::new`. -/
def runOps (ops : List BufOp) : DatafileBuffer :=
  ops.foldl applyOp DatafileBuffer.new

/-- `get_item_index` in local coordinates: `xs` holds the items from absolute
position `acc` onward (descriptor `start`s stay absolute). -/
def giiL (acc : Nat) (ts : List DfBufItemType) (xs : List DfBufItem)
    (ti : Nat) (tf : Bool) (id : Nat) : Nat × Bool :=
  if !tf then
    if ti ≠ ts.length then ((ts.getD ti noItemType).start, false)
    else (acc + xs.length, false)
  else
    giiScan id ((xs.drop ((ts.getD ti noItemType).start - acc)).take
      (ts.getD ti noItemType).num) (ts.getD ti noItemType).start

/-- `add_item` in local coordinates: identical to
`DatafileBuffer.add_item` on the item tables when `acc = 0`. -/
def addItemL (acc : Nat) (ts : List DfBufItemType) (xs : List DfBufItem)
    (type_id id : Nat) (data : List Int) :
    Except Unit (List DfBufItemType × List DfBufItem) :=
  let tp := gitiGo type_id ts 0
  let ip := giiL acc ts xs tp.1 tp.2 id
  if ip.2 then Except.error ()
  else Except.ok (addItemTypes ts tp.1 tp.2 type_id ip.1,
    xs.insertIdx (ip.1 - acc) ⟨type_id, id, data⟩)

theorem add_item_eq_addItemL (b : DatafileBuffer) (type_id id : Nat)
    (d : List Int) :
    b.add_item type_id id d = (addItemL 0 b.item_types b.items type_id id d).map
      (fun p => (⟨p.1, p.2, b.data⟩ : DatafileBuffer)) := by
  have hg : ∀ ti tf, b.get_item_index ti tf id = giiL 0 b.item_types b.items ti tf id := by
    intro ti tf
    unfold DatafileBuffer.get_item_index giiL
    simp
  unfold DatafileBuffer.add_item addItemL DatafileBuffer.get_item_type_index
  dsimp only
  rw [hg]
  by_cases hf : (giiL 0 b.item_types b.items (gitiGo type_id b.item_types 0).1
      (gitiGo type_id b.item_types 0).2 id).2
  · rw [if_pos hf, if_pos hf]
    rfl
  · rw [if_neg hf, if_neg hf]
    show Except.ok _ = Except.ok _
    rw [Nat.sub_zero]

theorem gitiGo_shift (type_id : Nat) :
    ∀ (l : List DfBufItemType) (c : Nat),
      gitiGo type_id l c = (c + (gitiGo type_id l 0).1, (gitiGo type_id l 0).2) := by
  intro l
  induction l with
  | nil =>
    intro c
    simp [gitiGo]
  | cons t rest ih =>
    intro c
    by_cases h : type_id ≤ t.type_id
    · simp [gitiGo, h]
    · simp only [gitiGo, if_neg h]
      rw [ih (c + 1), ih 1]
      simp [Nat.add_assoc]

theorem gitiGo_le (type_id : Nat) :
    ∀ l : List DfBufItemType, (gitiGo type_id l 0).1 ≤ l.length := by
  intro l
  induction l with
  | nil => simp [gitiGo]
  | cons t rest ih =>
    by_cases h : type_id ≤ t.type_id
    · simp [gitiGo, h]
    · simp only [gitiGo, if_neg h]
      rw [gitiGo_shift type_id rest 1]
      simp
      omega

theorem gitiGo_found_lt (type_id : Nat) :
    ∀ l : List DfBufItemType, (gitiGo type_id l 0).2 = true →
      (gitiGo type_id l 0).1 < l.length := by
  intro l
  induction l with
  | nil => simp [gitiGo]
  | cons t rest ih =>
    intro hf
    by_cases h : type_id ≤ t.type_id
    · simp [gitiGo, h]
    · simp only [gitiGo, if_neg h] at hf ⊢
      rw [gitiGo_shift type_id rest 1] at hf ⊢
      simp at hf ⊢
      have := ih hf
      omega

theorem giiScan_shift (id : Nat) :
    ∀ (l : List DfBufItem) (c : Nat),
      giiScan id l c = (c + (giiScan id l 0).1, (giiScan id l 0).2) := by
  intro l
  induction l with
  | nil =>
    intro c
    simp [giiScan]
  | cons x rest ih =>
    intro c
    by_cases h : id ≤ x.id
    · simp [giiScan, h]
    · simp only [giiScan, if_neg h]
      rw [ih (c + 1), ih 1]
      simp [Nat.add_assoc]

theorem idsStrict_cons (x : DfBufItem) (l : List DfBufItem) :
    idsStrict (x :: l) = true ↔
      ((∀ y, l.head? = some y → x.id < y.id) ∧ idsStrict l = true) := by
  cases l with
  | nil => simp [idsStrict]
  | cons y t => simp [idsStrict]

theorem idsStrict_head_lt (x : DfBufItem) :
    ∀ l : List DfBufItem, idsStrict (x :: l) = true → ∀ y ∈ l, x.id < y.id := by
  intro l
  induction l generalizing x with
  | nil => simp
  | cons y t ih =>
    intro h z hz
    obtain ⟨hhead, htail⟩ := (idsStrict_cons x (y :: t)).mp h
    have hxy : x.id < y.id := hhead y rfl
    rcases List.mem_cons.mp hz with heq | hmem
    · rw [heq]
      exact hxy
    · exact lt_trans hxy (ih y htail z hmem)

theorem giiScan_notfound_char (id : Nat) :
    ∀ l : List DfBufItem, idsStrict l = true → (giiScan id l 0).2 = false →
      (giiScan id l 0).1 ≤ l.length ∧
      (∀ y ∈ l.take (giiScan id l 0).1, y.id < id) ∧
      (∀ y ∈ l.drop (giiScan id l 0).1, id < y.id) := by
  intro l
  induction l with
  | nil =>
    intro _ _
    simp [giiScan]
  | cons x rest ih =>
    intro hs hnf
    by_cases h : id ≤ x.id
    · have hres : giiScan id (x :: rest) 0 = (0, id == x.id) := by
        simp [giiScan, h]
      rw [hres] at hnf ⊢
      have hne : id ≠ x.id := by simpa using hnf
      have hlt : id < x.id := by omega
      refine ⟨Nat.zero_le _, by simp, ?_⟩
      intro y hy
      rw [List.drop_zero] at hy
      rcases List.mem_cons.mp hy with heq | hmem
      · rw [heq]
        exact hlt
      · exact lt_trans hlt (idsStrict_head_lt x rest hs y hmem)
    · have hres : giiScan id (x :: rest) 0
          = ((giiScan id rest 0).1 + 1, (giiScan id rest 0).2) := by
        simp only [giiScan, if_neg h]
        rw [giiScan_shift id rest 1]
        simp [Nat.add_comm]
      rw [hres] at hnf ⊢
      have hst : idsStrict rest = true := ((idsStrict_cons x rest).mp hs).2
      obtain ⟨hle, hpre, hpost⟩ := ih hst hnf
      refine ⟨by simp; omega, ?_, ?_⟩
      · intro y hy
        rw [List.take_succ_cons] at hy
        rcases List.mem_cons.mp hy with heq | hmem
        · rw [heq]
          omega
        · exact hpre y hmem
      · intro y hy
        rw [List.drop_succ_cons] at hy
        exact hpost y hy

theorem giiScan_found_iff (id : Nat) :
    ∀ l : List DfBufItem, idsStrict l = true →
      ((giiScan id l 0).2 = true ↔ ∃ x ∈ l, x.id = id) := by
  intro l
  induction l with
  | nil =>
    intro _
    simp [giiScan]
  | cons x rest ih =>
    intro hs
    by_cases h : id ≤ x.id
    · simp only [giiScan, if_pos h]
      simp
      constructor
      · intro heq
        exact Or.inl heq.symm
      · rintro (heq | ⟨y, hy, hyid⟩)
        · exact heq.symm
        · have := idsStrict_head_lt x rest hs y hy
          omega
    · simp only [giiScan, if_neg h]
      rw [giiScan_shift id rest 1]
      have hst : idsStrict rest = true := ((idsStrict_cons x rest).mp hs).2
      simp [ih hst]
      intro heq
      omega

theorem wfAux_nil (acc : Nat) (xs : List DfBufItem) :
    wfAux acc [] xs = true ↔ xs = [] := by
  simp [wfAux, List.isEmpty_iff]

theorem wfAux_cons (acc : Nat) (t₀ : DfBufItemType) (ts : List DfBufItemType)
    (xs : List DfBufItem) :
    wfAux acc (t₀ :: ts) xs = true ↔
      (t₀.start = acc ∧ t₀.num ≤ xs.length ∧
        (∀ x ∈ xs.take t₀.num, x.type_id = t₀.type_id) ∧
        idsStrict (xs.take t₀.num) = true ∧
        (∀ t2, ts.head? = some t2 → t₀.type_id < t2.type_id) ∧
        wfAux (acc + t₀.num) ts (xs.drop t₀.num) = true) := by
  cases ts with
  | nil =>
    simp [wfAux, List.all_eq_true, and_assoc]
  | cons t2 rest =>
    simp [wfAux, List.all_eq_true, and_assoc]

theorem wfAux_chain (ts : List DfBufItemType) :
    ∀ (acc : Nat) (t₀ : DfBufItemType) (xs : List DfBufItem),
      wfAux acc (t₀ :: ts) xs = true → ∀ t2 ∈ ts, t₀.type_id < t2.type_id := by
  induction ts with
  | nil =>
    intro acc t₀ xs _ t2 ht2
    exact absurd ht2 (by simp)
  | cons t1 rest ih =>
    intro acc t₀ xs hwf t2 ht2
    obtain ⟨_, _, _, _, hnext, hrest⟩ := (wfAux_cons acc t₀ (t1 :: rest) xs).mp hwf
    have h01 : t₀.type_id < t1.type_id := hnext t1 rfl
    rcases List.mem_cons.mp ht2 with heq | hmem
    · rw [heq]
      exact h01
    · exact lt_trans h01 (ih _ t1 _ hrest t2 hmem)

theorem wfAux_members (ts : List DfBufItemType) :
    ∀ (acc : Nat) (xs : List DfBufItem), wfAux acc ts xs = true →
      ∀ x ∈ xs, ∃ t ∈ ts, x.type_id = t.type_id := by
  induction ts with
  | nil =>
    intro acc xs hwf x hx
    rw [wfAux_nil] at hwf
    rw [hwf] at hx
    exact absurd hx (by simp)
  | cons t₀ rest ih =>
    intro acc xs hwf x hx
    obtain ⟨_, _, htype, _, _, hrest⟩ := (wfAux_cons acc t₀ rest xs).mp hwf
    rcases List.mem_append.mp ((List.take_append_drop t₀.num xs) ▸ hx) with hm | hm
    · exact ⟨t₀, List.mem_cons_self _ _, htype x hm⟩
    · obtain ⟨t, htm, hte⟩ := ih _ _ hrest x hm
      exact ⟨t, List.mem_cons_of_mem _ htm, hte⟩

theorem wfAux_start_lb (ts : List DfBufItemType) :
    ∀ (acc : Nat) (xs : List DfBufItem), wfAux acc ts xs = true →
      ∀ t ∈ ts, acc ≤ t.start := by
  induction ts with
  | nil =>
    intro acc xs _ t ht
    exact absurd ht (by simp)
  | cons t₀ rest ih =>
    intro acc xs hwf t ht
    obtain ⟨hstart, _, _, _, _, hrest⟩ := (wfAux_cons acc t₀ rest xs).mp hwf
    rcases List.mem_cons.mp ht with heq | hmem
    · rw [heq, hstart]
    · exact le_trans (Nat.le_add_right acc t₀.num) (ih _ _ hrest t hmem)

theorem wfAux_bump (ts : List DfBufItemType) :
    ∀ (acc : Nat) (xs : List DfBufItem), wfAux acc ts xs = true →
      wfAux (acc + 1) (ts.map (fun t => { t with start := t.start + 1 })) xs
        = true := by
  induction ts with
  | nil =>
    intro acc xs hwf
    rw [wfAux_nil] at hwf
    simp only [List.map_nil]
    rw [wfAux_nil]
    exact hwf
  | cons t₀ rest ih =>
    intro acc xs hwf
    obtain ⟨hstart, hnum, htype, hids, hnext, hrest⟩ :=
      (wfAux_cons acc t₀ rest xs).mp hwf
    rw [List.map_cons, wfAux_cons]
    refine ⟨by simp [hstart], by simpa using hnum, by simpa using htype,
      by simpa using hids, ?_, ?_⟩
    · intro t2 ht2
      rw [List.head?_map] at ht2
      cases hh : rest.head? with
      | none =>
        rw [hh] at ht2
        exact absurd ht2 (by simp)
      | some th =>
        rw [hh] at ht2
        simp at ht2
        rw [← ht2]
        exact hnext th hh
    · have := ih (acc + t₀.num) (xs.drop t₀.num) hrest
      show wfAux (acc + 1 + t₀.num) _ _ = true
      rw [Nat.add_right_comm]
      simpa using this

theorem insertIdx_append_of_le {α : Type} (x : α) :
    ∀ (l₁ l₂ : List α) (w : Nat), w ≤ l₁.length →
      (l₁ ++ l₂).insertIdx w x = l₁.insertIdx w x ++ l₂ := by
  intro l₁
  induction l₁ with
  | nil =>
    intro l₂ w hw
    have hw0 : w = 0 := by simpa using hw
    subst hw0
    simp
  | cons a l₁ ih =>
    intro l₂ w hw
    cases w with
    | zero => simp
    | succ w =>
      rw [List.cons_append, List.insertIdx_succ_cons, List.insertIdx_succ_cons,
        ih l₂ w (by simpa using hw), List.cons_append]

theorem insertIdx_split {α : Type} (x : α) :
    ∀ (k : Nat) (l : List α) (w : Nat), k ≤ w → k ≤ l.length →
      l.insertIdx w x = l.take k ++ (l.drop k).insertIdx (w - k) x := by
  intro k
  induction k with
  | zero =>
    intro l w _ _
    simp
  | succ k ih =>
    intro l w hkw hkl
    cases l with
    | nil => simp at hkl
    | cons a l' =>
      cases w with
      | zero => omega
      | succ w =>
        rw [List.insertIdx_succ_cons, List.take_succ_cons, List.drop_succ_cons,
          Nat.succ_sub_succ, ih l' w (by omega) (by simpa using hkl),
          List.cons_append]

theorem idsStrict_insertIdx (x : DfBufItem) :
    ∀ (l : List DfBufItem) (w : Nat), idsStrict l = true → w ≤ l.length →
      (∀ y ∈ l.take w, y.id < x.id) → (∀ y ∈ l.drop w, x.id < y.id) →
      idsStrict (l.insertIdx w x) = true := by
  intro l
  induction l with
  | nil =>
    intro w _ hw _ _
    have hw0 : w = 0 := by simpa using hw
    subst hw0
    simp [idsStrict]
  | cons a l' ih =>
    intro w hs hw hpre hpost
    cases w with
    | zero =>
      rw [List.insertIdx_zero, idsStrict_cons]
      refine ⟨?_, hs⟩
      intro y hy
      injection hy with hy'
      rw [← hy']
      exact hpost a (by simp)
    | succ w =>
      rw [List.insertIdx_succ_cons, idsStrict_cons]
      have hs' := (idsStrict_cons a l').mp hs
      refine ⟨?_, ih w hs'.2 (by simpa using hw)
        (fun y hy => hpre y (by rw [List.take_succ_cons]; exact List.mem_cons_of_mem _ hy))
        (fun y hy => hpost y (by rwa [List.drop_succ_cons]))⟩
      intro y hy
      cases w with
      | zero =>
        rw [List.insertIdx_zero] at hy
        injection hy with hy'
        rw [← hy']
        exact hpre a (by simp)
      | succ w =>
        cases l' with
        | nil => simp at hw
        | cons b t =>
          rw [List.insertIdx_succ_cons] at hy
          injection hy with hy'
          rw [← hy']
          exact hs'.1 b rfl

theorem mem_modify {α : Type} (f : α → α) :
    ∀ (l : List α) (n : Nat) (x : α), x ∈ l.modify f n →
      x ∈ l ∨ ∃ y ∈ l, x = f y := by
  intro l
  induction l with
  | nil =>
    intro n x hx
    rw [List.modify_nil] at hx
    exact absurd hx (by simp)
  | cons a t ih =>
    intro n x hx
    cases n with
    | zero =>
      rw [List.modify_zero_cons] at hx
      rcases List.mem_cons.mp hx with heq | hmem
      · exact Or.inr ⟨a, by simp, heq⟩
      · exact Or.inl (List.mem_cons_of_mem _ hmem)
    | succ n =>
      rw [List.modify_succ_cons] at hx
      rcases List.mem_cons.mp hx with heq | hmem
      · exact Or.inl (by rw [heq]; simp)
      · rcases ih n x hmem with hm | ⟨y, hym, hye⟩
        · exact Or.inl (List.mem_cons_of_mem _ hm)
        · exact Or.inr ⟨y, List.mem_cons_of_mem _ hym, hye⟩

theorem giiScan_fst_ge (id : Nat) (l : List DfBufItem) (c : Nat) :
    c ≤ (giiScan id l c).1 := by
  rw [giiScan_shift]
  simp

theorem giiL_step (acc : Nat) (t₀ : DfBufItemType) (ts : List DfBufItemType)
    (xs : List DfBufItem) (r : Nat) (f : Bool) (id : Nat)
    (hnum : t₀.num ≤ xs.length)
    (hlb : ∀ t ∈ ts, acc + t₀.num ≤ t.start)
    (hfound : f = true → r < ts.length) :
    giiL acc (t₀ :: ts) xs (r + 1) f id
      = giiL (acc + t₀.num) ts (xs.drop t₀.num) r f id := by
  unfold giiL
  cases f with
  | false =>
    rw [if_pos (show (!false) = true from rfl), if_pos (show (!false) = true from rfl)]
    by_cases hr : r = ts.length
    · rw [if_neg (show ¬(r + 1 ≠ (t₀ :: ts).length) by simp [hr]),
        if_neg (show ¬(r ≠ ts.length) by simp [hr])]
      simp [List.length_drop]
      omega
    · rw [if_pos (show r + 1 ≠ (t₀ :: ts).length by simp; omega), if_pos hr,
        List.getD_cons_succ]
  | true =>
    rw [if_neg (show ¬((!true) = true) by decide),
      if_neg (show ¬((!true) = true) by decide), List.getD_cons_succ]
    have hmem : ts.getD r noItemType ∈ ts := by
      rw [List.getD_eq_getElem ts noItemType (hfound rfl)]
      exact List.getElem_mem _
    have hst : acc + t₀.num ≤ (ts.getD r noItemType).start := hlb _ hmem
    have hdr : (xs.drop t₀.num).drop ((ts.getD r noItemType).start - (acc + t₀.num))
        = xs.drop ((ts.getD r noItemType).start - acc) := by
      rw [List.drop_drop]
      congr 1
      omega
    rw [hdr]

theorem giiL_fst_ge (acc : Nat) (ts : List DfBufItemType) (xs : List DfBufItem)
    (ti : Nat) (tf : Bool) (id : Nat)
    (hlb : ∀ t ∈ ts, acc ≤ t.start) (hle : ti ≤ ts.length)
    (hfound : tf = true → ti < ts.length) :
    acc ≤ (giiL acc ts xs ti tf id).1 := by
  unfold giiL
  cases tf with
  | false =>
    rw [if_pos (show (!false) = true from rfl)]
    by_cases hti : ti ≠ ts.length
    · rw [if_pos hti]
      have hmem : ts.getD ti noItemType ∈ ts := by
        rw [List.getD_eq_getElem ts noItemType (by omega)]
        exact List.getElem_mem _
      exact hlb _ hmem
    · rw [if_neg hti]
      exact Nat.le_add_right acc xs.length
  | true =>
    rw [if_neg (show ¬((!true) = true) by decide)]
    have hmem : ts.getD ti noItemType ∈ ts := by
      rw [List.getD_eq_getElem ts noItemType (hfound rfl)]
      exact List.getElem_mem _
    exact le_trans (hlb _ hmem) (giiScan_fst_ge id _ _)

theorem addItemTypes_cons (t₀ : DfBufItemType) (ts : List DfBufItemType)
    (r : Nat) (f : Bool) (tid ii : Nat) :
    addItemTypes (t₀ :: ts) (r + 1) f tid ii = t₀ :: addItemTypes ts r f tid ii := by
  unfold addItemTypes
  cases f <;>
    simp [List.insertIdx_succ_cons, List.modify_succ_cons, List.take_succ_cons,
      List.drop_succ_cons]

theorem addItemL_step (acc : Nat) (t₀ : DfBufItemType) (ts : List DfBufItemType)
    (xs : List DfBufItem) (tid id : Nat) (d : List Int)
    (hwf : wfAux acc (t₀ :: ts) xs = true) (hgt : t₀.type_id < tid) :
    addItemL acc (t₀ :: ts) xs tid id d
      = (addItemL (acc + t₀.num) ts (xs.drop t₀.num) tid id d).map
          (fun p => (t₀ :: p.1, xs.take t₀.num ++ p.2)) := by
  obtain ⟨hstart, hnum, htype, hids, hnext, hrest⟩ :=
    (wfAux_cons acc t₀ ts xs).mp hwf
  have hlb : ∀ t ∈ ts, acc + t₀.num ≤ t.start :=
    wfAux_start_lb ts (acc + t₀.num) (xs.drop t₀.num) hrest
  have hgiti : gitiGo tid (t₀ :: ts) 0
      = ((gitiGo tid ts 0).1 + 1, (gitiGo tid ts 0).2) := by
    simp only [gitiGo, if_neg (show ¬tid ≤ t₀.type_id by omega)]
    rw [gitiGo_shift tid ts 1]
    simp [Nat.add_comm]
  have hfound : (gitiGo tid ts 0).2 = true → (gitiGo tid ts 0).1 < ts.length :=
    gitiGo_found_lt tid ts
  have hrle : (gitiGo tid ts 0).1 ≤ ts.length := gitiGo_le tid ts
  have hgii := giiL_step acc t₀ ts xs (gitiGo tid ts 0).1 (gitiGo tid ts 0).2 id
    hnum hlb hfound
  have hge : acc + t₀.num
      ≤ (giiL (acc + t₀.num) ts (xs.drop t₀.num) (gitiGo tid ts 0).1
          (gitiGo tid ts 0).2 id).1 :=
    giiL_fst_ge (acc + t₀.num) ts (xs.drop t₀.num) (gitiGo tid ts 0).1
      (gitiGo tid ts 0).2 id hlb hrle hfound
  unfold addItemL
  dsimp only
  rw [hgiti]
  dsimp only
  rw [hgii]
  by_cases hip : (giiL (acc + t₀.num) ts (xs.drop t₀.num) (gitiGo tid ts 0).1
      (gitiGo tid ts 0).2 id).2
  · rw [if_pos hip, if_pos hip]
    rfl
  · rw [if_neg hip, if_neg hip]
    show Except.ok _ = Except.ok _
    rw [addItemTypes_cons]
    have hins : xs.insertIdx
        ((giiL (acc + t₀.num) ts (xs.drop t₀.num) (gitiGo tid ts 0).1
          (gitiGo tid ts 0).2 id).1 - acc) ⟨tid, id, d⟩
        = xs.take t₀.num ++ (xs.drop t₀.num).insertIdx
            ((giiL (acc + t₀.num) ts (xs.drop t₀.num) (gitiGo tid ts 0).1
              (gitiGo tid ts 0).2 id).1 - (acc + t₀.num)) ⟨tid, id, d⟩ := by
      rw [insertIdx_split ⟨tid, id, d⟩ t₀.num xs _ (by omega) hnum]
      congr 1
      congr 1
      omega
    rw [hins]

theorem mem_insertIdx_any {α : Type} (x y : α) :
    ∀ (l : List α) (n : Nat), x ∈ l.insertIdx n y → x = y ∨ x ∈ l := by
  intro l
  induction l with
  | nil =>
    intro n hx
    cases n with
    | zero =>
      rw [List.insertIdx_zero] at hx
      rcases List.mem_cons.mp hx with heq | hmem
      · exact Or.inl heq
      · exact Or.inr hmem
    | succ n =>
      rw [List.insertIdx_succ_nil] at hx
      exact absurd hx (by simp)
  | cons a t ih =>
    intro n hx
    cases n with
    | zero =>
      rw [List.insertIdx_zero] at hx
      rcases List.mem_cons.mp hx with heq | hmem
      · exact Or.inl heq
      · exact Or.inr hmem
    | succ n =>
      rw [List.insertIdx_succ_cons] at hx
      rcases List.mem_cons.mp hx with heq | hmem
      · exact Or.inr (by rw [heq]; simp)
      · rcases ih n hmem with h | h
        · exact Or.inl h
        · exact Or.inr (List.mem_cons_of_mem _ h)

theorem addItemTypes_tids (ts : List DfBufItemType) (ti : Nat) (tf : Bool)
    (tid ii : Nat) :
    ∀ t' ∈ addItemTypes ts ti tf tid ii,
      t'.type_id = tid ∨ ∃ t'' ∈ ts, t'.type_id = t''.type_id := by
  intro t' ht'
  unfold addItemTypes at ht'
  dsimp only at ht'
  have hts1 : ∀ u, u ∈ (if !tf then ts.insertIdx ti ⟨tid, ii, 0⟩ else ts) →
      u.type_id = tid ∨ ∃ t'' ∈ ts, u.type_id = t''.type_id := by
    intro u hu
    cases tf with
    | false =>
      rw [if_pos (show (!false) = true from rfl)] at hu
      rcases mem_insertIdx_any u ⟨tid, ii, 0⟩ ts ti hu with heq | hmem
      · exact Or.inl (by rw [heq])
      · exact Or.inr ⟨u, hmem, rfl⟩
    | true =>
      rw [if_neg (show ¬((!true) = true) by decide)] at hu
      exact Or.inr ⟨u, hu, rfl⟩
  have hts2 : ∀ u, u ∈ ((if !tf then ts.insertIdx ti ⟨tid, ii, 0⟩ else ts).modify
      (fun t => { t with num := t.num + 1 }) ti) →
      u.type_id = tid ∨ ∃ t'' ∈ ts, u.type_id = t''.type_id := by
    intro u hu
    rcases mem_modify _ _ ti u hu with hm | ⟨y, hym, hye⟩
    · exact hts1 u hm
    · rw [hye]
      exact hts1 y hym
  rcases List.mem_append.mp ht' with hm | hm
  · exact hts2 t' (List.mem_of_mem_take hm)
  · obtain ⟨u, hu, hue⟩ := List.mem_map.mp hm
    rw [← hue]
    exact hts2 u (List.mem_of_mem_drop hu)

theorem addItemL_ok_tids (acc : Nat) (ts : List DfBufItemType)
    (xs : List DfBufItem) (tid id : Nat) (d : List Int)
    (ts2 : List DfBufItemType) (xs2 : List DfBufItem)
    (hok : addItemL acc ts xs tid id d = Except.ok (ts2, xs2)) :
    ∀ t' ∈ ts2, t'.type_id = tid ∨ ∃ t'' ∈ ts, t'.type_id = t''.type_id := by
  unfold addItemL at hok
  dsimp only at hok
  by_cases hip : (giiL acc ts xs (gitiGo tid ts 0).1 (gitiGo tid ts 0).2 id).2
  · rw [if_pos hip] at hok
    exact absurd hok (by simp)
  · rw [if_neg hip] at hok
    injection hok with hok'
    have h1 : addItemTypes ts (gitiGo tid ts 0).1 (gitiGo tid ts 0).2 tid
        (giiL acc ts xs (gitiGo tid ts 0).1 (gitiGo tid ts 0).2 id).1 = ts2 :=
      congrArg Prod.fst hok'
    rw [← h1]
    exact addItemTypes_tids ts _ _ tid _

theorem addItemTypes_zero_new (ts : List DfBufItemType) (tid ii : Nat) :
    addItemTypes ts 0 false tid ii
      = ⟨tid, ii, 1⟩ :: ts.map (fun t => { t with start := t.start + 1 }) := by
  unfold addItemTypes
  simp [List.insertIdx_zero, List.modify_zero_cons]

theorem addItemTypes_zero_found (t₀ : DfBufItemType) (ts : List DfBufItemType)
    (tid ii : Nat) :
    addItemTypes (t₀ :: ts) 0 true tid ii
      = { t₀ with num := t₀.num + 1 }
          :: ts.map (fun t => { t with start := t.start + 1 }) := by
  unfold addItemTypes
  simp [List.modify_zero_cons]

/-- The master lemma for `add_item` in local coordinates: on a well-formed
pair of tables, the call errors exactly when the `(type_id, id)` pair is
already present, and a successful call preserves well-formedness. -/
theorem addItemL_master (ts : List DfBufItemType) :
    ∀ (acc : Nat) (xs : List DfBufItem) (tid id : Nat) (d : List Int),
      wfAux acc ts xs = true →
      ((addItemL acc ts xs tid id d = Except.error ()) ↔
        ∃ x ∈ xs, x.type_id = tid ∧ x.id = id) ∧
      (∀ ts2 xs2, addItemL acc ts xs tid id d = Except.ok (ts2, xs2) →
        wfAux acc ts2 xs2 = true) := by
  induction ts with
  | nil =>
    intro acc xs tid id d hwf
    have hxs : xs = [] := (wfAux_nil acc xs).mp hwf
    subst hxs
    have hcomp : addItemL acc [] [] tid id d
        = Except.ok ([⟨tid, acc, 1⟩], [⟨tid, id, d⟩]) := by
      unfold addItemL giiL
      simp [gitiGo, addItemTypes, List.modify_zero_cons]
    constructor
    · constructor
      · intro herr
        rw [hcomp] at herr
        exact absurd herr (by simp)
      · rintro ⟨x, hx, _⟩
        exact absurd hx (by simp)
    · intro ts2 xs2 hok
      rw [hcomp] at hok
      injection hok with hok'
      have h1 := congrArg Prod.fst hok'
      have h2 := congrArg Prod.snd hok'
      simp only at h1 h2
      rw [← h1, ← h2, wfAux_cons]
      refine ⟨rfl, by simp, by simp, by simp [idsStrict], by simp, ?_⟩
      simp [wfAux_nil]
  | cons t₀ rest ih =>
    intro acc xs tid id d hwf
    obtain ⟨hstart, hnum, htype, hids, hnext, hrest⟩ :=
      (wfAux_cons acc t₀ rest xs).mp hwf
    rcases lt_trichotomy tid t₀.type_id with hlt | heq | hgt
    · -- new smallest type: inserted in front
      have hgiti : gitiGo tid (t₀ :: rest) 0 = (0, false) := by
        have hbeq : (tid == t₀.type_id) = false := by
          simp
          omega
        simp [gitiGo, Nat.le_of_lt hlt, hbeq]
      have hgii : giiL acc (t₀ :: rest) xs 0 false id = (acc, false) := by
        unfold giiL
        rw [if_pos (show (!false) = true from rfl),
          if_pos (show (0 : Nat) ≠ (t₀ :: rest).length by simp)]
        rw [List.getD_cons_zero, hstart]
      have hcomp : addItemL acc (t₀ :: rest) xs tid id d
          = Except.ok (addItemTypes (t₀ :: rest) 0 false tid acc,
              xs.insertIdx 0 ⟨tid, id, d⟩) := by
        unfold addItemL
        dsimp only
        rw [hgiti]
        dsimp only
        rw [hgii]
        show Except.ok _ = Except.ok _
        rw [Nat.sub_self]
      constructor
      · constructor
        · intro herr
          rw [hcomp] at herr
          exact absurd herr (by simp)
        · rintro ⟨x, hx, hxt, hxi⟩
          obtain ⟨t, htm, hte⟩ := wfAux_members (t₀ :: rest) acc xs hwf x hx
          rcases List.mem_cons.mp htm with h0 | hm
          · rw [h0] at hte
            omega
          · have := wfAux_chain rest acc t₀ xs hwf t hm
            omega
      · intro ts2 xs2 hok
        rw [hcomp] at hok
        injection hok with hok'
        have h1 := congrArg Prod.fst hok'
        have h2 := congrArg Prod.snd hok'
        simp only at h1 h2
        rw [← h1, ← h2, addItemTypes_zero_new, List.insertIdx_zero, wfAux_cons]
        refine ⟨rfl, by simp, by simp, by simp [idsStrict], ?_, ?_⟩
        · intro t2 ht2
          rw [List.head?_map] at ht2
          cases hh : (t₀ :: rest).head? with
          | none => exact absurd hh (by simp)
          | some th =>
            rw [hh] at ht2
            simp only [Option.map_some', Option.some.injEq] at ht2
            rw [← ht2]
            injection hh with hh'
            rw [← hh']
            exact hlt
        · show wfAux (acc + 1) _ _ = true
          rw [List.drop_succ_cons, List.drop_zero]
          exact wfAux_bump (t₀ :: rest) acc xs hwf
    · -- same type as the head descriptor
      have hgiti : gitiGo tid (t₀ :: rest) 0 = (0, true) := by
        simp [gitiGo, heq]
      have hgii2 : giiL acc (t₀ :: rest) xs 0 true id
          = ((giiScan id (xs.take t₀.num) 0).1 + acc,
              (giiScan id (xs.take t₀.num) 0).2) := by
        unfold giiL
        rw [if_neg (show ¬((!true) = true) by decide), List.getD_cons_zero,
          hstart, Nat.sub_self, List.drop_zero,
          giiScan_shift id (xs.take t₀.num) acc]
        simp [Nat.add_comm]
      cases hf0 : (giiScan id (xs.take t₀.num) 0).2 with
      | true =>
        have herr : addItemL acc (t₀ :: rest) xs tid id d = Except.error () := by
          unfold addItemL
          dsimp only
          rw [hgiti]
          dsimp only
          rw [hgii2]
          simp [hf0]
        obtain ⟨x, hxm, hxid⟩ :=
          (giiScan_found_iff id (xs.take t₀.num) hids).mp hf0
        refine ⟨iff_of_true herr
          ⟨x, List.mem_of_mem_take hxm, ?_, hxid⟩, ?_⟩
        · rw [htype x hxm, heq]
        · intro ts2 xs2 hok
          rw [herr] at hok
          exact absurd hok (by simp)
      | false =>
        obtain ⟨hwle, hpre, hpost⟩ :=
          giiScan_notfound_char id (xs.take t₀.num) hids hf0
        have htklen : (xs.take t₀.num).length = t₀.num := by
          rw [List.length_take]
          omega
        have hwnum : (giiScan id (xs.take t₀.num) 0).1 ≤ t₀.num := by
          rw [htklen] at hwle
          exact hwle
        have hcomp : addItemL acc (t₀ :: rest) xs tid id d
            = Except.ok (addItemTypes (t₀ :: rest) 0 true tid
                  ((giiScan id (xs.take t₀.num) 0).1 + acc),
                xs.insertIdx (giiScan id (xs.take t₀.num) 0).1 ⟨tid, id, d⟩) := by
          unfold addItemL
          dsimp only
          rw [hgiti]
          dsimp only
          rw [hgii2]
          simp [hf0]
        constructor
        · refine iff_of_false (by rw [hcomp]; simp) ?_
          rintro ⟨x, hx, hxt, hxi⟩
          rcases List.mem_append.mp ((List.take_append_drop t₀.num xs) ▸ hx)
            with hm | hm
          · have := (giiScan_found_iff id (xs.take t₀.num) hids).mpr ⟨x, hm, hxi⟩
            rw [hf0] at this
            exact absurd this (by simp)
          · obtain ⟨t, htm, hte⟩ :=
              wfAux_members rest (acc + t₀.num) (xs.drop t₀.num) hrest x hm
            have := wfAux_chain rest acc t₀ xs hwf t htm
            omega
        · intro ts2 xs2 hok
          rw [hcomp] at hok
          injection hok with hok'
          have h1 := congrArg Prod.fst hok'
          have h2 := congrArg Prod.snd hok'
          simp only at h1 h2
          rw [← h1, ← h2, addItemTypes_zero_found]
          have hxseq : xs.insertIdx (giiScan id (xs.take t₀.num) 0).1 ⟨tid, id, d⟩
              = (xs.take t₀.num).insertIdx (giiScan id (xs.take t₀.num) 0).1
                  ⟨tid, id, d⟩ ++ xs.drop t₀.num := by
            have h := insertIdx_append_of_le (⟨tid, id, d⟩ : DfBufItem)
              (xs.take t₀.num) (xs.drop t₀.num) (giiScan id (xs.take t₀.num) 0).1
              (by rw [htklen]; exact hwnum)
            rw [List.take_append_drop] at h
            exact h
          have hinslen : ((xs.take t₀.num).insertIdx
              (giiScan id (xs.take t₀.num) 0).1 ⟨tid, id, d⟩).length
              = t₀.num + 1 := by
            rw [List.length_insertIdx _ _ (by rw [htklen]; exact hwnum), htklen]
          rw [wfAux_cons, hxseq]
          refine ⟨hstart, ?_, ?_, ?_, ?_, ?_⟩
          · show t₀.num + 1 ≤ _
            rw [List.length_append, hinslen]
            omega
          · show ∀ x2 ∈ List.take (t₀.num + 1) _, _
            rw [List.take_left' hinslen]
            intro x2 hx2
            rcases mem_insertIdx_any x2 ⟨tid, id, d⟩ _ _ hx2 with hx2e | hx2m
            · rw [hx2e]
              show tid = t₀.type_id
              exact heq
            · exact htype x2 hx2m
          · show idsStrict (List.take (t₀.num + 1) _) = true
            rw [List.take_left' hinslen]
            exact idsStrict_insertIdx ⟨tid, id, d⟩ (xs.take t₀.num) _ hids
              (by rw [htklen]; exact hwnum) hpre hpost
          · intro t2 ht2
            rw [List.head?_map] at ht2
            cases hh : rest.head? with
            | none =>
              rw [hh] at ht2
              exact absurd ht2 (by simp)
            | some th =>
              rw [hh] at ht2
              simp only [Option.map_some', Option.some.injEq] at ht2
              rw [← ht2]
              show t₀.type_id < th.type_id
              exact hnext th hh
          · show wfAux (acc + (t₀.num + 1)) _ (List.drop (t₀.num + 1) _) = true
            rw [List.drop_left' hinslen, ← Nat.add_assoc]
            exact wfAux_bump rest (acc + t₀.num) (xs.drop t₀.num) hrest
    · -- larger type: recurse into the tail
      rw [addItemL_step acc t₀ rest xs tid id d hwf hgt]
      have hsubfacts := ih (acc + t₀.num) (xs.drop t₀.num) tid id d hrest
      constructor
      · cases hsub : addItemL (acc + t₀.num) rest (xs.drop t₀.num) tid id d with
        | error u =>
          cases u
          obtain ⟨x, hxm, hxt, hxi⟩ := hsubfacts.1.mp hsub
          exact iff_of_true rfl ⟨x, List.mem_of_mem_drop hxm, hxt, hxi⟩
        | ok p =>
          obtain ⟨tsS, xsS⟩ := p
          refine iff_of_false (by simp [Except.map]) ?_
          rintro ⟨x, hx, hxt, hxi⟩
          rcases List.mem_append.mp ((List.take_append_drop t₀.num xs) ▸ hx)
            with hm | hm
          · have := htype x hm
            omega
          · have herr := hsubfacts.1.mpr ⟨x, hm, hxt, hxi⟩
            rw [hsub] at herr
            exact absurd herr (by simp)
      · intro ts2 xs2 hok
        cases hsub : addItemL (acc + t₀.num) rest (xs.drop t₀.num) tid id d with
        | error u =>
          rw [hsub] at hok
          exact absurd hok (by simp [Except.map])
        | ok p =>
          obtain ⟨tsS, xsS⟩ := p
          rw [hsub] at hok
          simp only [Except.map, Except.ok.injEq] at hok
          have h1 := congrArg Prod.fst hok
          have h2 := congrArg Prod.snd hok
          simp only at h1 h2
          rw [← h1, ← h2, wfAux_cons]
          have hwfS := hsubfacts.2 tsS xsS hsub
          have htklen : (xs.take t₀.num).length = t₀.num := by
            rw [List.length_take]
            omega
          refine ⟨hstart, ?_, ?_, ?_, ?_, ?_⟩
          · rw [List.length_append, htklen]
            omega
          · rw [List.take_left' htklen]
            exact htype
          · rw [List.take_left' htklen]
            exact hids
          · intro t2 ht2
            have ht2m : t2 ∈ tsS := by
              cases tsS with
              | nil => exact absurd ht2 (by simp)
              | cons a l =>
                injection ht2 with ht2'
                rw [ht2']
                exact List.mem_cons_self _ _
            rcases addItemL_ok_tids (acc + t₀.num) rest (xs.drop t₀.num) tid id d
              tsS xsS hsub t2 ht2m with he | ⟨t3, ht3m, ht3e⟩
            · rw [he]
              exact hgt
            · rw [ht3e]
              exact wfAux_chain rest acc t₀ xs hwf t3 ht3m
          · rw [List.drop_left' htklen]
            exact hwfS

theorem wf_applyOp (b : DatafileBuffer) (op : BufOp) (hwf : b.wf = true) :
    (applyOp b op).wf = true := by
  cases op with
  | addItem t i d =>
    show (match b.add_item t i d with
      | Except.ok b2 => b2
      | Except.error _ => b).wf = true
    cases hai : b.add_item t i d with
    | error u => exact hwf
    | ok b2 =>
      show b2.wf = true
      rw [add_item_eq_addItemL] at hai
      cases haL : addItemL 0 b.item_types b.items t i d with
      | error u =>
        rw [haL] at hai
        exact absurd hai (by simp [Except.map])
      | ok p =>
        obtain ⟨ts2, xs2⟩ := p
        rw [haL] at hai
        have hb2 : b2 = ⟨ts2, xs2, b.data⟩ := by
          have : Except.ok (⟨ts2, xs2, b.data⟩ : DatafileBuffer) = Except.ok b2 := hai
          injection this with h
          exact h.symm
        rw [hb2]
        exact (addItemL_master b.item_types 0 b.items t i d hwf).2 ts2 xs2 haL
  | addData bs => exact hwf

theorem wf_runOps (ops : List BufOp) : (runOps ops).wf = true := by
  have hgen : ∀ (l : List BufOp) (b : DatafileBuffer), b.wf = true →
      (l.foldl applyOp b).wf = true := by
    intro l
    induction l with
    | nil =>
      intro b h
      exact h
    | cons op l ihl =>
      intro b h
      exact ihl _ (wf_applyOp b op h)
  exact hgen ops DatafileBuffer.new (by decide)

/-- Sum of the `num` fields of buffer type descriptors. -/
def sumNumsB (ts : List DfBufItemType) : Nat := (ts.map (fun t => t.num)).sum

theorem wfAux_starts (ts : List DfBufItemType) :
    ∀ (acc : Nat) (xs : List DfBufItem), wfAux acc ts xs = true →
      ∀ j, (hj : j < ts.length) → (ts.get ⟨j, hj⟩).start
        = acc + sumNumsB (ts.take j) := by
  induction ts with
  | nil =>
    intro acc xs _ j hj
    exact absurd hj (by simp)
  | cons t₀ rest ihs =>
    intro acc xs hwf j hj
    obtain ⟨hstart, _, _, _, _, hrest⟩ := (wfAux_cons acc t₀ rest xs).mp hwf
    cases j with
    | zero =>
      simpa [sumNumsB] using hstart
    | succ j =>
      have hj' : j < rest.length := by simpa using hj
      have := ihs (acc + t₀.num) (xs.drop t₀.num) hrest j hj'
      show (rest.get ⟨j, hj'⟩).start = _
      rw [this, List.take_succ_cons]
      simp [sumNumsB]
      omega

theorem wfAux_total (ts : List DfBufItemType) :
    ∀ (acc : Nat) (xs : List DfBufItem), wfAux acc ts xs = true →
      sumNumsB ts = xs.length := by
  induction ts with
  | nil =>
    intro acc xs hwf
    rw [(wfAux_nil acc xs).mp hwf]
    simp [sumNumsB]
  | cons t₀ rest ihs =>
    intro acc xs hwf
    obtain ⟨_, hnum, _, _, _, hrest⟩ := (wfAux_cons acc t₀ rest xs).mp hwf
    have := ihs (acc + t₀.num) (xs.drop t₀.num) hrest
    rw [List.length_drop] at this
    simp [sumNumsB] at this ⊢
    omega

theorem wfAux_span (ts : List DfBufItemType) :
    ∀ (acc : Nat) (xs : List DfBufItem), wfAux acc ts xs = true →
      ∀ j, (hj : j < ts.length) →
        (∀ x ∈ (xs.drop ((ts.get ⟨j, hj⟩).start - acc)).take (ts.get ⟨j, hj⟩).num,
          x.type_id = (ts.get ⟨j, hj⟩).type_id) ∧
        idsStrict ((xs.drop ((ts.get ⟨j, hj⟩).start - acc)).take
          (ts.get ⟨j, hj⟩).num) = true := by
  induction ts with
  | nil =>
    intro acc xs _ j hj
    exact absurd hj (by simp)
  | cons t₀ rest ihs =>
    intro acc xs hwf j hj
    obtain ⟨hstart, hnum, htype, hids, _, hrest⟩ :=
      (wfAux_cons acc t₀ rest xs).mp hwf
    cases j with
    | zero =>
      have hg0 : (t₀ :: rest).get ⟨0, hj⟩ = t₀ := rfl
      rw [hg0, hstart, Nat.sub_self, List.drop_zero]
      exact ⟨htype, hids⟩
    | succ j =>
      have hj' : j < rest.length := by simpa using hj
      have hmem : rest.get ⟨j, hj'⟩ ∈ rest := List.get_mem rest j hj'
      have hlb : acc + t₀.num ≤ (rest.get ⟨j, hj'⟩).start :=
        wfAux_start_lb rest (acc + t₀.num) (xs.drop t₀.num) hrest _ hmem
      have hdr : (xs.drop t₀.num).drop ((rest.get ⟨j, hj'⟩).start - (acc + t₀.num))
          = xs.drop ((rest.get ⟨j, hj'⟩).start - acc) := by
        rw [List.drop_drop]
        congr 1
        omega
      have := ihs (acc + t₀.num) (xs.drop t₀.num) hrest j hj'
      rw [hdr] at this
      exact this

theorem idsStrict_get_lt :
    ∀ (l : List DfBufItem), idsStrict l = true →
      ∀ (p q : Nat) (hp : p < l.length) (hq : q < l.length), p < q →
        (l.get ⟨p, hp⟩).id < (l.get ⟨q, hq⟩).id := by
  intro l
  induction l with
  | nil =>
    intro _ p q hp _ _
    exact absurd hp (by simp)
  | cons a t iht =>
    intro hs p q hp hq hpq
    cases q with
    | zero => omega
    | succ q =>
      have hq' : q < t.length := by simpa using hq
      cases p with
      | zero =>
        show a.id < (t.get ⟨q, hq'⟩).id
        exact idsStrict_head_lt a t hs _ (List.get_mem t q hq')
      | succ p =>
        have hp' : p < t.length := by simpa using hp
        exact iht ((idsStrict_cons a t).mp hs).2 p q hp' hq' (by omega)

theorem get_take_my (xs : List DfBufItem) (n i : Nat)
    (h : i < (xs.take n).length) :
    (xs.take n).get ⟨i, h⟩ = xs.get ⟨i, by rw [List.length_take] at h; omega⟩ := by
  rw [List.get_eq_getElem, List.get_eq_getElem, List.getElem_take]

theorem get_drop_my (xs : List DfBufItem) (n i : Nat)
    (h : i < (xs.drop n).length) :
    (xs.drop n).get ⟨i, h⟩
      = xs.get ⟨n + i, by rw [List.length_drop] at h; omega⟩ := by
  rw [List.get_eq_getElem, List.get_eq_getElem, List.getElem_drop]

theorem wfAux_pair_unique (ts : List DfBufItemType) :
    ∀ (acc : Nat) (xs : List DfBufItem), wfAux acc ts xs = true →
      ∀ (p q : Nat) (hp : p < xs.length) (hq : q < xs.length),
        (xs.get ⟨p, hp⟩).type_id = (xs.get ⟨q, hq⟩).type_id →
        (xs.get ⟨p, hp⟩).id = (xs.get ⟨q, hq⟩).id → p = q := by
  induction ts with
  | nil =>
    intro acc xs hwf p q hp _ _ _
    rw [(wfAux_nil acc xs).mp hwf] at hp
    exact absurd hp (by simp)
  | cons t₀ rest ihs =>
    intro acc xs hwf p q hp hq htid hid
    obtain ⟨hstart, hnum, htype, hids, _, hrest⟩ :=
      (wfAux_cons acc t₀ rest xs).mp hwf
    have htake : ∀ (i : Nat) (hi : i < xs.length) (hilt : i < t₀.num),
        xs.get ⟨i, hi⟩ = (xs.take t₀.num).get ⟨i, by
          rw [List.length_take]; omega⟩ := by
      intro i hi hilt
      exact (get_take_my xs t₀.num i (by rw [List.length_take]; omega)).symm
    have hdrop : ∀ (i : Nat) (hi : i < xs.length) (hile : t₀.num ≤ i),
        xs.get ⟨i, hi⟩ = (xs.drop t₀.num).get ⟨i - t₀.num, by
          rw [List.length_drop]; omega⟩ := by
      intro i hi hile
      rw [get_drop_my xs t₀.num (i - t₀.num) (by rw [List.length_drop]; omega)]
      have harith : t₀.num + (i - t₀.num) = i := by omega
      simp only [harith]
    have htakeT : ∀ (i : Nat) (hi : i < xs.length), i < t₀.num →
        (xs.get ⟨i, hi⟩).type_id = t₀.type_id := by
      intro i hi hilt
      exact htype _ (by rw [htake i hi hilt]; exact List.get_mem _ _ _)
    have hdropT : ∀ (i : Nat) (hi : i < xs.length), t₀.num ≤ i →
        t₀.type_id < (xs.get ⟨i, hi⟩).type_id := by
      intro i hi hile
      obtain ⟨t, htm, hte⟩ := wfAux_members rest (acc + t₀.num) (xs.drop t₀.num)
        hrest (xs.get ⟨i, hi⟩) (by rw [hdrop i hi hile]; exact List.get_mem _ _ _)
      rw [hte]
      exact wfAux_chain rest acc t₀ xs hwf t htm
    rcases Nat.lt_or_ge p t₀.num with hplt | hpge
    · rcases Nat.lt_or_ge q t₀.num with hqlt | hqge
      · by_contra hne
        rcases Nat.lt_or_ge p q with hlt | hge
        · have := idsStrict_get_lt (xs.take t₀.num) hids p q
            (by rw [List.length_take]; omega) (by rw [List.length_take]; omega) hlt
          rw [← htake p hp hplt, ← htake q hq hqlt] at this
          omega
        · have hqp : q < p := by omega
          have := idsStrict_get_lt (xs.take t₀.num) hids q p
            (by rw [List.length_take]; omega) (by rw [List.length_take]; omega) hqp
          rw [← htake p hp hplt, ← htake q hq hqlt] at this
          omega
      · have h1 := htakeT p hp hplt
        have h2 := hdropT q hq hqge
        omega
    · rcases Nat.lt_or_ge q t₀.num with hqlt | hqge
      · have h1 := htakeT q hq hqlt
        have h2 := hdropT p hp hpge
        omega
      · have h1 := hdrop p hp hpge
        have h2 := hdrop q hq hqge
        have := ihs (acc + t₀.num) (xs.drop t₀.num) hrest (p - t₀.num) (q - t₀.num)
          (by rw [List.length_drop]; omega) (by rw [List.length_drop]; omega)
          (by rw [← h1, ← h2]; exact htid) (by rw [← h1, ← h2]; exact hid)
        omega

theorem wfAux_pairwise (ts : List DfBufItemType) :
    ∀ (acc : Nat) (xs : List DfBufItem), wfAux acc ts xs = true →
      List.Pairwise (fun t1 t2 => t1.type_id < t2.type_id) ts := by
  induction ts with
  | nil =>
    intro acc xs _
    exact List.Pairwise.nil
  | cons t₀ rest ihs =>
    intro acc xs hwf
    obtain ⟨_, _, _, _, _, hrest⟩ := (wfAux_cons acc t₀ rest xs).mp hwf
    exact List.Pairwise.cons (wfAux_chain rest acc t₀ xs hwf)
      (ihs (acc + t₀.num) (xs.drop t₀.num) hrest)

/-- C8: on a well-formed buffer already containing an item with the given
`(type_id, id)` pair, `add_item` returns the recoverable "already exists"
error and the buffer state is left completely unchanged. -/
theorem C8_add_item_duplicate (b : DatafileBuffer) (type_id id : Nat)
    (d : List Int) (hwf : b.wf = true)
    (hex : ∃ x ∈ b.items, x.type_id = type_id ∧ x.id = id) :
    b.add_item type_id id d = Except.error () ∧
      applyOp b (BufOp.addItem type_id id d) = b := by
  have herr := (addItemL_master b.item_types 0 b.items type_id id d hwf).1.mpr hex
  have h1 : b.add_item type_id id d = Except.error () := by
    rw [add_item_eq_addItemL, herr]
    rfl
  refine ⟨h1, ?_⟩
  show (match b.add_item type_id id d with
    | Except.ok b2 => b2
    | Except.error _ => b) = b
  rw [h1]

/-- C9: after every sequence of `add_item`/`add_data` calls from
`DatafileBuffer::new`, the buffer invariant holds: item types strictly
ascending by `type_id`, each descriptor's `start` equal to the sum of the
earlier descriptors' `num`s, spans covering the items list exactly, items
within each span typed by their descriptor and strictly ascending by id, and
`(type_id, id)` pairs unique across the buffer. -/
theorem C9_buffer_invariant (ops : List BufOp) :
    List.Pairwise (fun t1 t2 => t1.type_id < t2.type_id)
      (runOps ops).item_types ∧
    (∀ j, (hj : j < (runOps ops).item_types.length) →
      ((runOps ops).item_types.get ⟨j, hj⟩).start
        = sumNumsB ((runOps ops).item_types.take j)) ∧
    sumNumsB (runOps ops).item_types = (runOps ops).items.length ∧
    (∀ j, (hj : j < (runOps ops).item_types.length) →
      (∀ x ∈ ((runOps ops).items.drop
          ((runOps ops).item_types.get ⟨j, hj⟩).start).take
          ((runOps ops).item_types.get ⟨j, hj⟩).num,
        x.type_id = ((runOps ops).item_types.get ⟨j, hj⟩).type_id) ∧
      idsStrict (((runOps ops).items.drop
          ((runOps ops).item_types.get ⟨j, hj⟩).start).take
          ((runOps ops).item_types.get ⟨j, hj⟩).num) = true) ∧
    (∀ (p q : Nat) (hp : p < (runOps ops).items.length)
        (hq : q < (runOps ops).items.length),
      ((runOps ops).items.get ⟨p, hp⟩).type_id
          = ((runOps ops).items.get ⟨q, hq⟩).type_id →
      ((runOps ops).items.get ⟨p, hp⟩).id
          = ((runOps ops).items.get ⟨q, hq⟩).id →
      p = q) := by
  have hwf := wf_runOps ops
  unfold DatafileBuffer.wf at hwf
  refine ⟨wfAux_pairwise _ 0 _ hwf, ?_, wfAux_total _ 0 _ hwf, ?_,
    wfAux_pair_unique _ 0 _ hwf⟩
  · intro j hj
    have := wfAux_starts _ 0 _ hwf j hj
    simpa using this
  · intro j hj
    have := wfAux_span _ 0 _ hwf j hj
    simpa using this

/-- A buffer holding the single item `(1, 2)`. -/
def BDup : DatafileBuffer := runOps [BufOp.addItem 1 2 [5]]

theorem C8_add_item_duplicate_witness :
    BDup.add_item 1 2 [7] = Except.error () ∧
      applyOp BDup (BufOp.addItem 1 2 [7]) = BDup :=
  C8_add_item_duplicate BDup 1 2 [7] (by decide) (by decide)

theorem C9_buffer_invariant_witness :
    sumNumsB (runOps [BufOp.addItem 1 2 [5], BufOp.addData [9]]).item_types
      = (runOps [BufOp.addItem 1 2 [5], BufOp.addData [9]]).items.length :=
  (C9_buffer_invariant [BufOp.addItem 1 2 [5], BufOp.addData [9]]).2.2.1

end Datafile
